import Mathlib

/-!
Verification of the F1 telemetry dashboard core against its specification.

Shallow embedding conventions:
- Byte buffers are `List Nat` (one entry per byte); multi-byte fields are
  decoded little-endian, exactly as the source's `struct.unpack('<...')`
  calls do.  IEEE-754 `float32` fields are carried as their raw 32-bit
  little-endian bit patterns (a `Nat`): packing and unpacking a float is a
  byte-level identity, and no claim here depends on float arithmetic.
- Python numbers inside the telemetry state and the lap-analysis engine are
  modelled as exact rationals (`ℚ`).
- Python dict/list reference semantics (needed for the snapshot-aliasing
  claim) is modelled by an explicit heap of objects addressed by `Nat`.
- Fallible parsers return `Option`, mirroring the source's `return None`
  on short buffers.
-/

/-! ## Byte-level decoding (src/f1_udp_client.py) -/

/-- Little-endian value of `n` bytes of `buf` starting at offset `off`.
Out-of-range bytes read as 0; every caller guards the length first, as the
source does before `struct.unpack`. -/
def leVal (buf : List Nat) (off : Nat) : Nat → Nat
  | 0 => 0
  | Nat.succ m => buf.getD off 0 + 256 * leVal buf (off + 1) m

/-- Little-endian byte encoding of `v` on `n` bytes, as `struct.pack('<...')`
produces for an unsigned field. -/
def bytesLE (v : Nat) : Nat → List Nat
  | 0 => []
  | Nat.succ m => (v % 256) :: bytesLE (v / 256) m

/-- Signed decoding of one byte as a two's-complement `int8` (format char `b`). -/
def int8OfByte (b : Nat) : Int :=
  if b < 128 then (b : Int) else (b : Int) - 256

/-- Size in bytes of the header format `'<HBBBBQfIIBB'`
(uint16, 4×uint8, uint64, float32, 2×uint32, 2×uint8), as
`struct.calcsize` computes it: 28 bytes. -/
def header_size : Nat := 2 + 1 + 1 + 1 + 1 + 8 + 4 + 4 + 4 + 1 + 1

/-- The record `F1PacketParser.parse_header` actually returns: nine keys.
`session_time` is the raw float32 bit pattern.  Note the source builds
`player_car_index` from `data[8]`, which in the format `'<HBBBBQfIIBB'` is
the second `uint32` (bytes 22..25, the overall frame identifier), not the
`uint8` player-index byte at offset 26. -/
structure Header where
  packet_format : Nat
  game_major_version : Nat
  game_minor_version : Nat
  packet_version : Nat
  packet_id : Nat
  session_uid : Nat
  session_time : Nat
  frame_identifier : Nat
  player_car_index : Nat
deriving DecidableEq

/-- Model of `F1PacketParser.parse_header` (src/f1_udp_client.py:29-50). -/
def parse_header (packet : List Nat) : Option Header :=
  if packet.length < header_size then none
  else some
    { packet_format := leVal packet 0 2
      game_major_version := leVal packet 2 1
      game_minor_version := leVal packet 3 1
      packet_version := leVal packet 4 1
      packet_id := leVal packet 5 1
      session_uid := leVal packet 6 8
      session_time := leVal packet 14 4
      frame_identifier := leVal packet 18 4
      player_car_index := leVal packet 22 4 }

/-- Model of `create_header` (src/mock_udp_sender.py:44-50), generalized over
the fields it packs with `struct.pack('<HBBBBQfIIBB', ...)`: the repository's
own encoder of the 11-field header layout.  `time_bits` is the float32 bit
pattern of the session time. -/
def create_header (packet_format game_major game_minor packet_version
    packet_id session_uid time_bits frame_id overall_frame_id
    player_index secondary_index : Nat) : List Nat :=
  bytesLE packet_format 2 ++ bytesLE game_major 1 ++ bytesLE game_minor 1 ++
  bytesLE packet_version 1 ++ bytesLE packet_id 1 ++ bytesLE session_uid 8 ++
  bytesLE time_bits 4 ++ bytesLE frame_id 4 ++ bytesLE overall_frame_id 4 ++
  bytesLE player_index 1 ++ bytesLE secondary_index 1

/-- Size in bytes of the car-telemetry record format
`'<HfffBbHBBHHHHHBBBBBBBBHffffBBBB'`, as `struct.calcsize` computes it:
60 bytes. -/
def car_data_size : Nat :=
  2 + 4 + 4 + 4 + 1 + 1 + 2 + 1 + 1 + 2 + (4 * 2) + 4 + 4 + 2 + (4 * 4) + 4

/-- The record `F1PacketParser.parse_car_telemetry` returns (the dict built
from the unpacked tuple).  Float fields are raw float32 bit patterns. -/
structure CarTelemetrySample where
  speed : Nat
  throttle : Nat
  steer : Nat
  brake : Nat
  clutch : Nat
  gear : Int
  rpm : Nat
  drs : Nat
  rev_lights_percent : Nat
  engine_temp : Nat
  tyres_surface_temp : List Nat
deriving DecidableEq

/-- Field extraction of one 60-byte car-telemetry record at offset `off`,
following the format `'<HfffBbHBBHHHHHBBBBBBBBHffffBBBB'` and the source's
tuple indices (speed=0 at +0, throttle=1 at +2, ..., tyre surface temps
=14..17 at +30..+33, engine_temp=22 at +38). -/
def unpackCarTelemetry (packet : List Nat) (off : Nat) : CarTelemetrySample :=
  { speed := leVal packet off 2
    throttle := leVal packet (off + 2) 4
    steer := leVal packet (off + 6) 4
    brake := leVal packet (off + 10) 4
    clutch := leVal packet (off + 14) 1
    gear := int8OfByte (leVal packet (off + 15) 1)
    rpm := leVal packet (off + 16) 2
    drs := leVal packet (off + 18) 1
    rev_lights_percent := leVal packet (off + 19) 1
    engine_temp := leVal packet (off + 38) 2
    tyres_surface_temp :=
      [leVal packet (off + 30) 1, leVal packet (off + 31) 1,
       leVal packet (off + 32) 1, leVal packet (off + 33) 1] }

/-- Model of `F1PacketParser.parse_car_telemetry` (src/f1_udp_client.py:52-116):
compute `offset = header_size + player_index * car_data_size`, fail when the
buffer is shorter than `offset + car_data_size`, otherwise unpack there. -/
def parse_car_telemetry (packet : List Nat) (player_index : Nat) :
    Option CarTelemetrySample :=
  let offset := header_size + player_index * car_data_size
  if packet.length < offset + car_data_size then none
  else some (unpackCarTelemetry packet offset)

/-! ## Telemetry state store (src/telemetry_state.py)

The seven pre-allocated numpy column arrays of the circular buffer are
modelled as one list of rows: every source operation writes all seven
columns at the same index and slices all seven with the same index range,
so the row list carries exactly the same information.  `time.time()` is
passed in explicitly as a rational `now` argument. -/

namespace Config

/-- `Config.MAX_HISTORY_LENGTH` (src/config.py:21). -/
def MAX_HISTORY_LENGTH : Nat := 2400

end Config

/-- One row of the history ring buffer: the seven columns written by
`update_telemetry` and returned by `get_history_df`. -/
structure HistoryRow where
  time_stamp : ℚ
  speed_kph : ℚ
  rpm : ℚ
  gear : ℚ
  throttle_pct : ℚ
  brake_pct : ℚ
  drs : ℚ
deriving DecidableEq

/-- The all-zero row the buffer is pre-allocated with (`np.zeros`). -/
def zeroRow : HistoryRow :=
  { time_stamp := 0, speed_kph := 0, rpm := 0, gear := 0,
    throttle_pct := 0, brake_pct := 0, drs := 0 }

/-- The argument dict of `update_telemetry`: `data.get(key, 0)` is modelled
by `Option ℚ` fields read with `.getD 0`. -/
structure TelemetryData where
  speed : Option ℚ
  throttle : Option ℚ
  brake : Option ℚ
  gear : Option ℚ
  rpm : Option ℚ
  drs : Option ℚ
deriving DecidableEq

/-- The fields of `TelemetryState` involved in the ring buffer, the staleness
check and the history read. -/
structure TelemetryState where
  last_update_time : ℚ
  is_connected : Bool
  start_time : ℚ
  history_maxlen : Nat
  history_index : Nat
  history_count : Nat
  buffer : List HistoryRow
deriving DecidableEq

/-- `TelemetryState.__init__` (src/telemetry_state.py:36-101) restricted to
the modelled fields; `now` is the construction-time `time.time()`. -/
def mkTelemetryState (maxlen : Nat) (now : ℚ) : TelemetryState :=
  { last_update_time := 0
    is_connected := false
    start_time := now
    history_maxlen := maxlen
    history_index := 0
    history_count := 0
    buffer := List.replicate maxlen zeroRow }

/-- The row `update_telemetry` writes into the buffer at the current index:
rpm is clamped to the uint16 maximum, gear to the int8 range, throttle and
brake are scaled to percent. -/
def writeRow (data : TelemetryData) (relative_time : ℚ) : HistoryRow :=
  { time_stamp := relative_time
    speed_kph := data.speed.getD 0
    rpm := min (data.rpm.getD 0) 65535
    gear := max (-128) (min (data.gear.getD 0) 127)
    throttle_pct := data.throttle.getD 0 * 100
    brake_pct := data.brake.getD 0 * 100
    drs := data.drs.getD 0 }

/-- Model of `TelemetryState.update_telemetry` (src/telemetry_state.py:103-133).
`now` is the value of `time.time()` during the call. -/
def update_telemetry (st : TelemetryState) (data : TelemetryData) (now : ℚ) :
    TelemetryState :=
  let start_time := if st.history_count = 0 then now else st.start_time
  let relative_time := now - start_time
  { st with
    last_update_time := now
    is_connected := true
    start_time := start_time
    buffer := st.buffer.set st.history_index (writeRow data relative_time)
    history_index := (st.history_index + 1) % st.history_maxlen
    history_count := min (st.history_count + 1) st.history_maxlen }

/-- Model of `TelemetryState.get_snapshot` (src/telemetry_state.py:159-176),
restricted to the staleness logic: it first sets `is_connected := false`
when `now - last_update_time > 2.0`, then returns the (possibly updated)
state together with the `connected` value it reports.  The record-copying
part of `get_snapshot` is modelled at heap level below. -/
def get_snapshot (st : TelemetryState) (now : ℚ) : TelemetryState × Bool :=
  let st' := if 2 < now - st.last_update_time then { st with is_connected := false } else st
  (st', st'.is_connected)

/-- Python truthiness of the optional `limit` argument: `None` and `0` are
falsy. -/
def pyTruthy : Option Nat → Bool
  | none => false
  | some n => n != 0

/-- Python's nonnegative `%` on a possibly negative left operand, as in
`(self.history_index - limit) % self.history_maxlen`. -/
def pymod (a : Int) (n : Nat) : Nat := (a % (n : Int)).toNat

/-- Model of `TelemetryState.get_history_df` (src/telemetry_state.py:178-231).
Note the source computes `count = min(limit, history_count) if limit else
history_count` and never uses it; the slice bounds below follow the source's
`slice_start` / `slice_end` logic exactly.  A contiguous slice
`buffer[s:e]` is `(drop s).take (e - s)`; the wrapped case concatenates the
index ranges `[s, maxlen)` and `[0, e)` exactly as the `np.concatenate` of
the two `np.arange`s does. -/
def get_history_df (st : TelemetryState) (limit : Option Nat) : List HistoryRow :=
  if st.history_count = 0 then []
  else
    let bounds : Nat × Nat :=
      if st.history_count < st.history_maxlen then
        (0, st.history_count)
      else
        let slice_start :=
          if pyTruthy limit && decide (limit.getD 0 < st.history_count) then
            pymod ((st.history_index : Int) - (limit.getD 0 : Int)) st.history_maxlen
          else st.history_index
        (slice_start, st.history_index)
    if bounds.1 < bounds.2 then
      (st.buffer.drop bounds.1).take (bounds.2 - bounds.1)
    else
      (st.buffer.drop bounds.1).take (st.history_maxlen - bounds.1) ++
        st.buffer.take bounds.2

/-! ## Heap model of the latest-record dicts and `get_snapshot` copies

`snapshot()` returns `self.telemetry.copy()` etc.: Python `dict.copy` is a
shallow copy, so nested mutable values (the `tyres_surface_temp` list) keep
their identity.  Dicts and lists live on an explicit heap addressed by
`Nat`; a `PyVal` is either an immutable number or a reference. -/

/-- A Python value: an immutable number, or a reference to a heap object. -/
inductive PyVal where
  | num : ℚ → PyVal
  | ref : Nat → PyVal
deriving DecidableEq

/-- A heap object: a dict (association list, insertion-ordered as in
Python) or a list. -/
inductive PyObj where
  | pdict : List (String × PyVal) → PyObj
  | plist : List PyVal → PyObj
deriving DecidableEq

/-- The heap: object at address `a` is `objs[a]`. -/
structure Heap where
  objs : List PyObj
deriving DecidableEq

/-- Read the object at an address. -/
def heapGet (h : Heap) (a : Nat) : Option PyObj := h.objs.get? a

/-- Replace the object at an address. -/
def heapSet (h : Heap) (a : Nat) (o : PyObj) : Heap := ⟨h.objs.set a o⟩

/-- Allocate a fresh object; its address is the old heap size. -/
def heapAlloc (h : Heap) (o : PyObj) : Heap × Nat :=
  (⟨h.objs ++ [o]⟩, h.objs.length)

/-- Update key `k` of an association list, appending if absent
(Python `d[k] = v`). -/
def assocSet : List (String × PyVal) → String → PyVal → List (String × PyVal)
  | [], k, v => [(k, v)]
  | (k', v') :: rest, k, v =>
    if k' = k then (k', v) :: rest else (k', v') :: assocSet rest k v

/-- Look up key `k` in an association list. -/
def assocGet : List (String × PyVal) → String → Option PyVal
  | [], _ => none
  | (k', v') :: rest, k => if k' = k then some v' else assocGet rest k

/-- `d[k] = v` on the dict at address `a` (no-op on a non-dict, which the
source never does). -/
def dictAssign (h : Heap) (a : Nat) (k : String) (v : PyVal) : Heap :=
  match heapGet h a with
  | some (PyObj.pdict kvs) => heapSet h a (PyObj.pdict (assocSet kvs k v))
  | _ => h

/-- `d[k]` on the dict at address `a`. -/
def dictLookup (h : Heap) (a : Nat) (k : String) : Option PyVal :=
  match heapGet h a with
  | some (PyObj.pdict kvs) => assocGet kvs k
  | _ => none

/-- `l[i] = v` on the list at address `a` (in-place element mutation). -/
def listAssign (h : Heap) (a : Nat) (i : Nat) (v : PyVal) : Heap :=
  match heapGet h a with
  | some (PyObj.plist vs) => heapSet h a (PyObj.plist (vs.set i v))
  | _ => h

/-- The `TelemetryState` latest-record storage: the addresses of the three
dicts `self.telemetry`, `self.lap_data`, `self.session` in a heap. -/
structure Store where
  heap : Heap
  telemetry : Nat
  lap_data : Nat
  session : Nat
deriving DecidableEq

/-- The initial `self.telemetry` dict entries (src/telemetry_state.py:54-64);
`tyres_surface_temp` holds a reference to the list `[0, 0, 0, 0]`. -/
def initTelemetryEntries (tyresAddr : Nat) : List (String × PyVal) :=
  [("speed", PyVal.num 0), ("throttle", PyVal.num 0), ("brake", PyVal.num 0),
   ("gear", PyVal.num 0), ("rpm", PyVal.num 0), ("drs", PyVal.num 0),
   ("rev_lights_percent", PyVal.num 0), ("engine_temp", PyVal.num 0),
   ("tyres_surface_temp", PyVal.ref tyresAddr)]

/-- The initial `self.lap_data` dict entries (src/telemetry_state.py:66-80). -/
def initLapEntries : List (String × PyVal) :=
  [("current_lap_time", PyVal.num 0), ("last_lap_time", PyVal.num 0),
   ("best_lap_time", PyVal.num 0), ("sector1_time", PyVal.num 0),
   ("sector2_time", PyVal.num 0), ("lap_distance", PyVal.num 0),
   ("total_distance", PyVal.num 0), ("car_position", PyVal.num 0),
   ("current_lap", PyVal.num 0), ("pit_status", PyVal.num 0),
   ("sector", PyVal.num 0), ("current_lap_invalid", PyVal.num 0),
   ("penalties", PyVal.num 0)]

/-- The initial `self.session` dict entries (src/telemetry_state.py:82-90). -/
def initSessionEntries : List (String × PyVal) :=
  [("track_id", PyVal.num (-1)), ("formula", PyVal.num 0),
   ("session_type", PyVal.num 0), ("track_temperature", PyVal.num 0),
   ("air_temperature", PyVal.num 0), ("total_laps", PyVal.num 0),
   ("session_time_left", PyVal.num 0)]

/-- The store as `__init__` builds it: tyre list at address 0, the three
dicts at addresses 1, 2, 3. -/
def initStore : Store :=
  { heap := ⟨[PyObj.plist [PyVal.num 0, PyVal.num 0, PyVal.num 0, PyVal.num 0],
              PyObj.pdict (initTelemetryEntries 0),
              PyObj.pdict initLapEntries,
              PyObj.pdict initSessionEntries]⟩
    telemetry := 1
    lap_data := 2
    session := 3 }

/-- Python `dict.copy()` on the dict at address `a`: allocate a fresh dict
object holding the same entries (values copied verbatim, references
included). -/
def dictCopy (h : Heap) (a : Nat) : Heap × Nat :=
  match heapGet h a with
  | some (PyObj.pdict kvs) => heapAlloc h (PyObj.pdict kvs)
  | _ => heapAlloc h (PyObj.pdict [])

/-- The record-copying part of `TelemetryState.get_snapshot`
(src/telemetry_state.py:171-176): three `dict.copy()` calls; returns the
new heap and the addresses of the three copies. -/
def snapshotCopies (s : Store) : Heap × Nat × Nat × Nat :=
  let p1 := dictCopy s.heap s.telemetry
  let p2 := dictCopy p1.1 s.lap_data
  let p3 := dictCopy p2.1 s.session
  (p3.1, p1.2, p2.2, p3.2)

/-- The observable (deep) value of a `PyVal`: numbers as themselves,
references dereferenced one level to the list of numbers they denote. -/
inductive Obs where
  | onum : ℚ → Obs
  | oarr : List (Option ℚ) → Obs
  | odead : Obs
deriving DecidableEq

/-- Observe a value through the heap. -/
def obsOfVal (h : Heap) : PyVal → Obs
  | PyVal.num q => Obs.onum q
  | PyVal.ref a =>
    match heapGet h a with
    | some (PyObj.plist vs) =>
      Obs.oarr (vs.map fun v => match v with | PyVal.num q => some q | _ => none)
    | _ => Obs.odead

/-- The observable contents of the dict at address `a`: what a reader of
the record sees, nested list values included. -/
def obsOfDict (h : Heap) (a : Nat) : List (String × Obs) :=
  match heapGet h a with
  | some (PyObj.pdict kvs) => kvs.map fun kv => (kv.1, obsOfVal h kv.2)
  | _ => []

/-- Well-formedness of a store: the three record addresses hold dicts and
every reference stored in them points inside the heap. -/
def valRefOk (n : Nat) : PyVal → Bool
  | PyVal.ref a => a < n
  | _ => true

/-- The address holds a dict whose reference values all point inside the
heap. -/
def dictOk (h : Heap) (a : Nat) : Bool :=
  match heapGet h a with
  | some (PyObj.pdict kvs) => kvs.all fun kv => valRefOk h.objs.length kv.2
  | _ => false

/-- Store well-formedness (decidable). -/
def StoreWF (s : Store) : Prop :=
  dictOk s.heap s.telemetry ∧ dictOk s.heap s.lap_data ∧ dictOk s.heap s.session

instance : Decidable (StoreWF s) := by unfold StoreWF; infer_instance

/-! ## Lap alignment and delta engine (src/telemetry_utils.py)

Rows of externally supplied lap tables.  `find_corner_zones` is modelled on
rows that already carry the `dist_along_lap` column (the source computes it
first via `compute_distance_along_lap` when absent; that computation is
modelled separately as `calc_distance`). -/

/-- A lap-table row as `find_corner_zones` reads it. -/
structure LapRow where
  time_stamp : ℚ
  speed_kph : ℚ
  dist_along_lap : ℚ
deriving DecidableEq

/-- One corner zone record produced by `find_corner_zones`. -/
structure CornerZone where
  name : String
  start_dist : ℚ
  end_dist : ℚ
  min_speed : ℚ
deriving DecidableEq

/-- Nonempty-series maximum, as pandas `Series.max()` (all call sites are
guarded nonempty). -/
def seriesMax : List ℚ → ℚ
  | [] => 0
  | q :: qs => qs.foldl max q

/-- Nonempty-series minimum, as pandas `Series.min()`. -/
def seriesMin : List ℚ → ℚ
  | [] => 0
  | q :: qs => qs.foldl min q

/-- Loop state of the `for idx, row in lap_data.iterrows()` scan
(src/telemetry_utils.py:252-274): the flag `in_corner`, the rows
`lap_data.loc[corner_start_idx : current]` accumulated so far while inside a
corner, and the collected corners. -/
structure CornerScan where
  in_corner : Bool
  seg : List LapRow
  corners : List CornerZone
deriving DecidableEq

/-- One iteration of the corner-detection scan.  On the row that closes a
corner the segment is `lap_data.loc[corner_start_idx : idx]`, which is
inclusive of the closing above-threshold row; duration is the segment's
time span, `start_dist`/`end_dist` its first and last distances, and
`min_speed` its minimum speed. -/
def stepCorner (speed_threshold min_duration : ℚ) (s : CornerScan) (r : LapRow) :
    CornerScan :=
  if r.speed_kph < speed_threshold then
    if s.in_corner then { s with seg := s.seg ++ [r] }
    else { in_corner := true, seg := [r], corners := s.corners }
  else
    if s.in_corner then
      let segment := s.seg ++ [r]
      let duration :=
        seriesMax (segment.map LapRow.time_stamp) -
          seriesMin (segment.map LapRow.time_stamp)
      let corners' :=
        if min_duration ≤ duration then
          s.corners ++
            [{ name := ("Corner ") ++ toString (s.corners.length + 1)
               start_dist := (segment.headD r).dist_along_lap
               end_dist := r.dist_along_lap
               min_speed := seriesMin (segment.map LapRow.speed_kph) }]
        else s.corners
      { in_corner := false, seg := [], corners := corners' }
    else s

/-- Model of `find_corner_zones` (src/telemetry_utils.py:231-276): sort by
`time_stamp`, then scan.  Source defaults: `speed_threshold = 200`,
`min_duration = 1.0`. -/
def find_corner_zones (lap_data : List LapRow)
    (speed_threshold min_duration : ℚ) : List CornerZone :=
  let sorted := lap_data.mergeSort fun a b => decide (a.time_stamp ≤ b.time_stamp)
  (sorted.foldl (stepCorner speed_threshold min_duration)
    { in_corner := false, seg := [], corners := [] }).corners

/-- A point of the delta table produced by `compute_lap_delta` (only the
columns `compute_corner_deltas` reads). -/
structure DeltaPoint where
  distance : ℚ
  delta_ms : ℚ
deriving DecidableEq

/-- One entry of the list `compute_corner_deltas` returns. -/
structure CornerDelta where
  name : String
  delta_ms : ℚ
  type : String
deriving DecidableEq

/-- The delta-table rows whose distance lies within the corner zone:
`delta_df[(distance >= start_dist) & (distance <= end_dist)]`. -/
def cornerPoints (delta_df : List DeltaPoint) (corner : CornerZone) :
    List DeltaPoint :=
  delta_df.filter fun p =>
    decide (corner.start_dist ≤ p.distance) && decide (p.distance ≤ corner.end_dist)

/-- Model of `compute_corner_deltas` (src/telemetry_utils.py:279-308): for
each zone, keep the in-range delta points; when nonempty, append an entry
whose `delta_ms` is `iloc[-1] - iloc[0]` of the in-range `delta_ms` column
and whose `type` is `gain` when that change is negative, `loss` otherwise. -/
def compute_corner_deltas (delta_df : List DeltaPoint)
    (corners : List CornerZone) : List CornerDelta :=
  corners.foldl
    (fun acc corner =>
      match cornerPoints delta_df corner with
      | [] => acc
      | p0 :: rest =>
        let delta_change := (rest.getLastD p0).delta_ms - p0.delta_ms
        acc ++ [{ name := corner.name
                  delta_ms := delta_change
                  type := if delta_change < 0 then ("gain") else ("loss") }])
    []

/-- A row of the per-(driver, lap) group handled by `calc_distance`, the
inner function of `compute_distance_along_lap`. -/
structure SpeedSample where
  time_stamp : ℚ
  speed_kph : ℚ
deriving DecidableEq

/-- `group['time_stamp'].diff().fillna(0)`: 0 for the first row, successive
differences after. -/
def timeDiffs : List ℚ → List ℚ
  | [] => []
  | t :: ts => 0 :: List.zipWith (fun a b => a - b) ts (t :: ts)

/-- pandas `Series.cumsum()`: running sums, same length. -/
def cumsum (l : List ℚ) : List ℚ := (l.scanl (fun a b => a + b) 0).tail

/-- Model of `calc_distance` (src/telemetry_utils.py:32-46), the per-group
body of `compute_distance_along_lap`: sort by time, convert km/h to m/s,
multiply by the time differences, take the cumulative sum. -/
def calc_distance (group : List SpeedSample) : List ℚ :=
  let g := group.mergeSort fun a b => decide (a.time_stamp ≤ b.time_stamp)
  cumsum (List.zipWith (fun r dt => r.speed_kph * 1000 / 3600 * dt)
    g (timeDiffs (g.map SpeedSample.time_stamp)))

/-! ## Shared concrete inputs -/

/-- A sample `update_telemetry` argument. -/
def sampleData1 : TelemetryData :=
  { speed := some 100, throttle := some 1, brake := some 0,
    gear := some 3, rpm := some 9000, drs := some 1 }

/-- A second sample `update_telemetry` argument. -/
def sampleData2 : TelemetryData :=
  { speed := some 200, throttle := some (1/2), brake := some (1/4),
    gear := some 4, rpm := some 11000, drs := some 0 }

/-! ## Claim theorems -/

/-- C2 (counterexample to the stated property): decoding a header does not
recover the player index.  `create_header` (the repository's own packer of
the 11-field `'<HBBBBQfIIBB'` layout) is given `overall_frame_id = 29` and
`player_index = 3`; the packed buffer indeed carries 3 at byte offset 26,
yet `parse_header` reports `player_car_index = 29` — it reads the
`overall_frame_id` word — and its result record has no
`overall_frame_identifier` or `secondary_player_index` field at all. -/
theorem parse_header_misreads_player_index :
    (parse_header
        (create_header 2024 1 0 1 6 123456789 0 7 29 3 255)).map
        Header.player_car_index = some 29
    ∧ (create_header 2024 1 0 1 6 123456789 0 7 29 3 255).getD 26 0 = 3
    ∧ (create_header 2024 1 0 1 6 123456789 0 7 29 3 255).length = header_size
    ∧ (29 : Nat) ≠ 3 := by decide

/-- C6: `parse_car_telemetry` fails (returns `none`) exactly when the buffer
is shorter than `header_size + (car_index + 1) * car_data_size` bytes, for
every buffer and every car index; the record size of the 60-byte
little-endian car-telemetry layout is 60; and a successful parse decodes the
record fields at offset `header_size + car_index * car_data_size`. -/
theorem parse_car_telemetry_guard (packet : List Nat) (player_index : Nat) :
    (parse_car_telemetry packet player_index = none ↔
      packet.length < header_size + (player_index + 1) * car_data_size)
    ∧ (∀ r, parse_car_telemetry packet player_index = some r →
        r = unpackCarTelemetry packet (header_size + player_index * car_data_size))
    ∧ car_data_size = 60 := by
  have harith : header_size + (player_index + 1) * car_data_size
      = header_size + player_index * car_data_size + car_data_size := by ring
  refine ⟨?_, ?_, rfl⟩
  · rw [harith]
    simp only [parse_car_telemetry]
    split <;> simp_all
  · intro r hr
    simp only [parse_car_telemetry] at hr
    split at hr
    · exact absurd hr (by simp)
    · exact (Option.some_injective _ hr).symm

/-- Witness for `parse_car_telemetry_guard`: an 88-byte buffer is too short
for car index 1 (needs 28 + 2·60 = 148 bytes). -/
theorem parse_car_telemetry_guard_witness :
    parse_car_telemetry (List.replicate 88 0) 1 = none :=
  (parse_car_telemetry_guard (List.replicate 88 0) 1).1.mpr (by decide)

/-- Helper: after exactly two writes into a buffer of capacity above 2, a
history read with `limit = 1` still returns both rows — the not-yet-full
branch of `get_history_df` never consults `limit`. -/
theorem get_history_df_two_writes (maxlen : Nat) (h2 : 2 < maxlen)
    (t0 t1 t2 : ℚ) (d1 d2 : TelemetryData) :
    get_history_df
      (update_telemetry (update_telemetry (mkTelemetryState maxlen t0) d1 t1)
        d2 t2) (some 1)
      = [writeRow d1 0, writeRow d2 (t2 - t1)] := by
  obtain ⟨k, rfl⟩ : ∃ k, maxlen = k + 3 := ⟨maxlen - 3, by omega⟩
  have h1 : (0 + 1) % (k + 3) = 1 := Nat.mod_eq_of_lt (by omega)
  have hmin1 : min (0 + 1) (k + 3) = 1 := by omega
  have hmin2 : min (1 + 1) (k + 3) = 2 := by omega
  simp only [mkTelemetryState, update_telemetry, get_history_df, h1, hmin1]
  have hb2 : (1 + 1) % (k + 3) = 2 := Nat.mod_eq_of_lt (by omega)
  simp only [hmin2, hb2]
  simp only [h2, if_true, if_pos, sub_self]
  norm_num
  rfl

/-- C1 (failing-input evaluation): with capacity `Config.MAX_HISTORY_LENGTH`
and two rows written (`written = 2 ≤ capacity`), `get_history_df` with
`limit = 1 ≤ written` returns both rows, not the one most recent row: the
buffer-not-full branch ignores `limit` (the source's `count` variable is
computed and never used). -/
theorem get_history_df_ignores_limit_when_not_full :
    get_history_df
      (update_telemetry
        (update_telemetry (mkTelemetryState Config.MAX_HISTORY_LENGTH 0)
          sampleData1 0)
        sampleData2 1)
      (some 1)
      = [writeRow sampleData1 0, writeRow sampleData2 1]
    ∧ (get_history_df
        (update_telemetry
          (update_telemetry (mkTelemetryState Config.MAX_HISTORY_LENGTH 0)
            sampleData1 0)
          sampleData2 1)
        (some 1)).length = 2 := by
  have h := get_history_df_two_writes Config.MAX_HISTORY_LENGTH
    (by norm_num [Config.MAX_HISTORY_LENGTH]) 0 0 1 sampleData1 sampleData2
  norm_num at h
  exact ⟨h, by rw [h]; rfl⟩

/-- C5 (counterexample to the stated property): `connected` is not
`(now - last_update_time) < 2.0`.  After an update at time 0, a snapshot
read at exactly `now = 2` reports `connected = true`, although
`now - last_update_time < 2` is false: the source tests
`time.time() - last_update_time > 2.0`, so the boundary point 2.0 stays
connected. -/
theorem get_snapshot_connected_at_boundary :
    (get_snapshot
        (update_telemetry (mkTelemetryState Config.MAX_HISTORY_LENGTH 0)
          sampleData1 0) 2).2 = true
    ∧ ¬ ((2 : ℚ) -
          (update_telemetry (mkTelemetryState Config.MAX_HISTORY_LENGTH 0)
            sampleData1 0).last_update_time < 2) := by
  constructor
  · norm_num [get_snapshot, update_telemetry, mkTelemetryState]
  · norm_num [update_telemetry, mkTelemetryState]

/-- C3 (counterexample to the stated property): the snapshot records are not
deep copies.  On the freshly initialized store, the telemetry copy returned
by the snapshot holds the very same reference (heap address 0) to the
tyre-surface-temperature list as the internal record, and writing element 0
of that list through the snapshot changes the observable contents of the
Store's internal `telemetry` record. -/
theorem snapshot_tyre_array_aliased :
    dictLookup (snapshotCopies initStore).1 (snapshotCopies initStore).2.1
        ("tyres_surface_temp") = some (PyVal.ref 0)
    ∧ dictLookup initStore.heap initStore.telemetry ("tyres_surface_temp")
        = some (PyVal.ref 0)
    ∧ (snapshotCopies initStore).2.1 ≠ initStore.telemetry
    ∧ obsOfDict (listAssign (snapshotCopies initStore).1 0 0 (PyVal.num 999))
        initStore.telemetry
      ≠ obsOfDict (snapshotCopies initStore).1 initStore.telemetry := by decide

/-- Helper: a chain of snapshot reads never touches `last_update_time`, and
leaves `is_connected` true exactly when it was true before and no read saw
more than 2 seconds of staleness. -/
theorem foldl_get_snapshot_state (reads : List ℚ) (s : TelemetryState) :
    (reads.foldl (fun s u => (get_snapshot s u).1) s).last_update_time
        = s.last_update_time
    ∧ (reads.foldl (fun s u => (get_snapshot s u).1) s).is_connected
        = (s.is_connected &&
            reads.all fun u => decide (u - s.last_update_time ≤ 2)) := by
  induction reads generalizing s with
  | nil => simp
  | cons u us ih =>
    have hstep1 : (get_snapshot s u).1.last_update_time = s.last_update_time := by
      unfold get_snapshot
      split <;> rfl
    have hstep2 : (get_snapshot s u).1.is_connected
        = (s.is_connected && decide (u - s.last_update_time ≤ 2)) := by
      unfold get_snapshot
      split <;> rename_i h
      · have hnle : ¬ (u - s.last_update_time ≤ 2) := not_le.mpr h
        simp [hnle]
      · have hle : u - s.last_update_time ≤ 2 := not_lt.mp h
        simp [hle]
    simp only [List.foldl_cons, List.all_cons]
    constructor
    · rw [(ih ((get_snapshot s u).1)).1, hstep1]
    · rw [(ih ((get_snapshot s u).1)).2, hstep1, hstep2, Bool.and_assoc]

/-- C5 (amended): for every state, after an update at time `t` followed by
any chain of snapshot reads at times not later than `now` (taken at or after
`t`), a snapshot read at `now` reports
`connected = (now - last_update_time ≤ 2.0)`: true immediately after the
update and at exactly 2.0 elapsed seconds, false once strictly more than
2.0 seconds have elapsed without an update. -/
theorem snapshot_connected_staleness (st : TelemetryState)
    (d : TelemetryData) (t now : ℚ) (reads : List ℚ)
    (hreads : ∀ u ∈ reads, u ≤ now) (hnow : t ≤ now) :
    (get_snapshot
        (reads.foldl (fun s u => (get_snapshot s u).1)
          (update_telemetry st d t)) now).2
      = decide (now - t ≤ 2) := by
  have hfold := foldl_get_snapshot_state reads (update_telemetry st d t)
  set s' := reads.foldl (fun s u => (get_snapshot s u).1) (update_telemetry st d t)
    with hs'
  have hlast : s'.last_update_time = t := hfold.1
  have hconn : s'.is_connected
      = reads.all fun u => decide (u - t ≤ 2) := by
    rw [hfold.2]
    rfl
  simp only [get_snapshot, hlast]
  split <;> rename_i h
  · have hnle : ¬ (now - t ≤ 2) := not_le.mpr h
    simp [hnle]
  · have hle : now - t ≤ 2 := not_lt.mp h
    rw [hconn, decide_eq_true hle, List.all_eq_true]
    intro u hu
    have h1 : u ≤ now := hreads u hu
    simp only [decide_eq_true_eq]
    linarith

/-- Witness for `snapshot_connected_staleness`: update at 0, reads at 1 and
3, final read at 5 reports `connected = decide (5 - 0 ≤ 2) = false`. -/
theorem snapshot_connected_staleness_witness :
    (get_snapshot
        (([(1 : ℚ), 3]).foldl (fun s u => (get_snapshot s u).1)
          (update_telemetry (mkTelemetryState Config.MAX_HISTORY_LENGTH 0)
            sampleData1 0)) 5).2
      = decide ((5 : ℚ) - 0 ≤ 2) :=
  snapshot_connected_staleness (mkTelemetryState Config.MAX_HISTORY_LENGTH 0)
    sampleData1 0 5 [1, 3] (by decide) (by decide)

/-- Helper: reading below the old length is unaffected by appended objects. -/
theorem heapGet_append (h : Heap) (l : List PyObj) (a : Nat)
    (hlt : a < h.objs.length) :
    heapGet ⟨h.objs ++ l⟩ a = heapGet h a := by
  unfold heapGet
  simp [List.get?_eq_getElem?, List.getElem?_append, hlt]

/-- Helper: reading at an address other than the written one is unaffected. -/
theorem heapGet_heapSet_ne (h : Heap) (tgt : Nat) (o : PyObj) (a : Nat)
    (hne : tgt ≠ a) :
    heapGet (heapSet h tgt o) a = heapGet h a := by
  unfold heapGet heapSet
  simp [List.get?_eq_getElem?, List.getElem?_set_ne hne]

/-- Helper: a successful read implies the address is inside the heap. -/
theorem heapGet_lt (h : Heap) {a : Nat} {o : PyObj}
    (hg : heapGet h a = some o) : a < h.objs.length := by
  unfold heapGet at hg
  rw [List.get?_eq_getElem?] at hg
  obtain ⟨hlt, _⟩ := List.getElem?_eq_some.mp hg
  exact hlt

/-- Helper: unpack a `dictOk` fact. -/
theorem dictOk_elim (h : Heap) (a : Nat) (hok : dictOk h a = true) :
    ∃ kvs, heapGet h a = some (PyObj.pdict kvs)
      ∧ ∀ kv ∈ kvs, valRefOk h.objs.length kv.2 = true := by
  unfold dictOk at hok
  split at hok
  · next kvs heq => exact ⟨kvs, heq, by simpa [List.all_eq_true] using hok⟩
  · next heq => cases hok

/-- Helper: observing a well-referenced value is unaffected by writing at or
above the reference bound. -/
theorem obsOfVal_heapSet_high (h : Heap) (tgt : Nat) (o : PyObj) (v : PyVal)
    (n : Nat) (hok : valRefOk n v = true) (hn : n ≤ tgt) :
    obsOfVal (heapSet h tgt o) v = obsOfVal h v := by
  cases v with
  | num q => rfl
  | ref b =>
    have hb : b < n := by simpa [valRefOk] using hok
    simp only [obsOfVal]
    rw [heapGet_heapSet_ne _ _ _ _ (show tgt ≠ b by omega)]

/-- Helper: observing a well-formed dict is unaffected by writing at or above
the bound `n` when the dict sits below `n`. -/
theorem obsOfDict_heapSet_high (h : Heap) (tgt a : Nat) (o : PyObj)
    (kvs : List (String × PyVal)) (n : Nat)
    (hget : heapGet h a = some (PyObj.pdict kvs))
    (hok : ∀ kv ∈ kvs, valRefOk n kv.2 = true)
    (ha : a < n) (hn : n ≤ tgt) :
    obsOfDict (heapSet h tgt o) a = obsOfDict h a := by
  unfold obsOfDict
  rw [heapGet_heapSet_ne _ _ _ _ (by omega), hget]
  exact List.map_congr_left fun kv hkv =>
    congrArg (fun x => (kv.1, x))
      (obsOfVal_heapSet_high h tgt o kv.2 n (hok kv hkv) hn)

/-- Helper: the heap and addresses `snapshotCopies` produces on a well-formed
store: the three copies are appended at the end of the old heap, object
values (entry lists, shared references included) taken verbatim from the
originals. -/
theorem snapshotCopies_spec (s : Store) (hwf : StoreWF s) :
    ∃ kT kL kS,
      heapGet s.heap s.telemetry = some (PyObj.pdict kT)
      ∧ heapGet s.heap s.lap_data = some (PyObj.pdict kL)
      ∧ heapGet s.heap s.session = some (PyObj.pdict kS)
      ∧ (∀ kv ∈ kT, valRefOk s.heap.objs.length kv.2 = true)
      ∧ (∀ kv ∈ kL, valRefOk s.heap.objs.length kv.2 = true)
      ∧ (∀ kv ∈ kS, valRefOk s.heap.objs.length kv.2 = true)
      ∧ (snapshotCopies s).1.objs
          = s.heap.objs ++ [PyObj.pdict kT, PyObj.pdict kL, PyObj.pdict kS]
      ∧ (snapshotCopies s).2.1 = s.heap.objs.length
      ∧ (snapshotCopies s).2.2.1 = s.heap.objs.length + 1
      ∧ (snapshotCopies s).2.2.2 = s.heap.objs.length + 2 := by
  obtain ⟨kT, hT, hokT⟩ := dictOk_elim s.heap s.telemetry hwf.1
  obtain ⟨kL, hL, hokL⟩ := dictOk_elim s.heap s.lap_data hwf.2.1
  obtain ⟨kS, hS, hokS⟩ := dictOk_elim s.heap s.session hwf.2.2
  have e1 : dictCopy s.heap s.telemetry
      = (⟨s.heap.objs ++ [PyObj.pdict kT]⟩, s.heap.objs.length) := by
    unfold dictCopy heapAlloc
    rw [hT]
  have hL1 : heapGet ⟨s.heap.objs ++ [PyObj.pdict kT]⟩ s.lap_data
      = some (PyObj.pdict kL) := by
    rw [heapGet_append _ _ _ (heapGet_lt s.heap hL)]
    exact hL
  have e2 : dictCopy ⟨s.heap.objs ++ [PyObj.pdict kT]⟩ s.lap_data
      = (⟨s.heap.objs ++ [PyObj.pdict kT, PyObj.pdict kL]⟩,
          (s.heap.objs ++ [PyObj.pdict kT]).length) := by
    unfold dictCopy heapAlloc
    rw [hL1]
    simp
  have hS1 : heapGet ⟨s.heap.objs ++ [PyObj.pdict kT, PyObj.pdict kL]⟩
      s.session = some (PyObj.pdict kS) := by
    rw [heapGet_append _ _ _ (heapGet_lt s.heap hS)]
    exact hS
  have e3 : dictCopy ⟨s.heap.objs ++ [PyObj.pdict kT, PyObj.pdict kL]⟩
      s.session
      = (⟨s.heap.objs ++ [PyObj.pdict kT, PyObj.pdict kL, PyObj.pdict kS]⟩,
          (s.heap.objs ++ [PyObj.pdict kT, PyObj.pdict kL]).length) := by
    unfold dictCopy heapAlloc
    rw [hS1]
    simp
  refine ⟨kT, kL, kS, hT, hL, hS, hokT, hokL, hokS, ?_, ?_, ?_, ?_⟩ <;>
    simp [snapshotCopies, e1, e2, e3]

/-- C3 (amended): the copies `get_snapshot` returns are top-level shallow
copies.  On every well-formed store, (a) each returned record is a fresh
dict object holding exactly the same entries as the internal one — so its
nested `tyres_surface_temp` reference is shared — and (b) assigning any
value to any key of any of the three returned dicts leaves the observable
contents of all three internal Store records unchanged. -/
theorem snapshot_top_level_copies_defensive (s : Store) (hwf : StoreWF s)
    (k : String) (v : PyVal) (target : Nat)
    (htarget : target = (snapshotCopies s).2.1
      ∨ target = (snapshotCopies s).2.2.1
      ∨ target = (snapshotCopies s).2.2.2) :
    (heapGet (snapshotCopies s).1 (snapshotCopies s).2.1
        = heapGet s.heap s.telemetry
      ∧ heapGet (snapshotCopies s).1 (snapshotCopies s).2.2.1
        = heapGet s.heap s.lap_data
      ∧ heapGet (snapshotCopies s).1 (snapshotCopies s).2.2.2
        = heapGet s.heap s.session)
    ∧ obsOfDict (dictAssign (snapshotCopies s).1 target k v) s.telemetry
        = obsOfDict (snapshotCopies s).1 s.telemetry
    ∧ obsOfDict (dictAssign (snapshotCopies s).1 target k v) s.lap_data
        = obsOfDict (snapshotCopies s).1 s.lap_data
    ∧ obsOfDict (dictAssign (snapshotCopies s).1 target k v) s.session
        = obsOfDict (snapshotCopies s).1 s.session := by
  obtain ⟨kT, kL, kS, hT, hL, hS, hokT, hokL, hokS, hobjs, haT, haL, haS⟩ :=
    snapshotCopies_spec s hwf
  have hTlt : s.telemetry < s.heap.objs.length := heapGet_lt s.heap hT
  have hLlt : s.lap_data < s.heap.objs.length := heapGet_lt s.heap hL
  have hSlt : s.session < s.heap.objs.length := heapGet_lt s.heap hS
  have hget1 : ∀ a, heapGet (snapshotCopies s).1 a
      = (s.heap.objs ++
          [PyObj.pdict kT, PyObj.pdict kL, PyObj.pdict kS]).get? a := by
    intro a
    unfold heapGet
    rw [hobjs]
  have hlow : ∀ a, a < s.heap.objs.length →
      heapGet (snapshotCopies s).1 a = heapGet s.heap a := by
    intro a ha
    rw [hget1]
    unfold heapGet
    simp [List.get?_eq_getElem?, List.getElem?_append, ha]
  have hgetT : heapGet (snapshotCopies s).1 s.telemetry
      = some (PyObj.pdict kT) := by rw [hlow _ hTlt]; exact hT
  have hgetL : heapGet (snapshotCopies s).1 s.lap_data
      = some (PyObj.pdict kL) := by rw [hlow _ hLlt]; exact hL
  have hgetS : heapGet (snapshotCopies s).1 s.session
      = some (PyObj.pdict kS) := by rw [hlow _ hSlt]; exact hS
  have htgt : s.heap.objs.length ≤ target := by
    rcases htarget with h | h | h
    · rw [h, haT]
    · rw [h, haL]; omega
    · rw [h, haS]; omega
  have key : ∀ (a : Nat) (kvs : List (String × PyVal)),
      heapGet (snapshotCopies s).1 a = some (PyObj.pdict kvs) →
      (∀ kv ∈ kvs, valRefOk s.heap.objs.length kv.2 = true) →
      a < s.heap.objs.length →
      obsOfDict (dictAssign (snapshotCopies s).1 target k v) a
        = obsOfDict (snapshotCopies s).1 a := by
    intro a kvs hget hok ha
    unfold dictAssign
    split
    · exact obsOfDict_heapSet_high _ target a _ kvs s.heap.objs.length
        hget hok ha htgt
    · rfl
  refine ⟨⟨?_, ?_, ?_⟩, key _ kT hgetT hokT hTlt, key _ kL hgetL hokL hLlt,
      key _ kS hgetS hokS hSlt⟩
  · rw [haT, hget1, hT, List.get?_eq_getElem?,
      List.getElem?_append_right (le_refl _)]
    simp
  · rw [haL, hget1, hL, List.get?_eq_getElem?,
      List.getElem?_append_right (by omega)]
    simp
  · rw [haS, hget1, hS, List.get?_eq_getElem?,
      List.getElem?_append_right (by omega)]
    simp

/-- Witness for `snapshot_top_level_copies_defensive`: the initial store with
an assignment of key `speed` on the telemetry copy. -/
theorem snapshot_top_level_copies_defensive_witness :
    (heapGet (snapshotCopies initStore).1 (snapshotCopies initStore).2.1
        = heapGet initStore.heap initStore.telemetry
      ∧ heapGet (snapshotCopies initStore).1 (snapshotCopies initStore).2.2.1
        = heapGet initStore.heap initStore.lap_data
      ∧ heapGet (snapshotCopies initStore).1 (snapshotCopies initStore).2.2.2
        = heapGet initStore.heap initStore.session)
    ∧ obsOfDict
        (dictAssign (snapshotCopies initStore).1
          (snapshotCopies initStore).2.1 ("speed") (PyVal.num 5))
        initStore.telemetry
      = obsOfDict (snapshotCopies initStore).1 initStore.telemetry
    ∧ obsOfDict
        (dictAssign (snapshotCopies initStore).1
          (snapshotCopies initStore).2.1 ("speed") (PyVal.num 5))
        initStore.lap_data
      = obsOfDict (snapshotCopies initStore).1 initStore.lap_data
    ∧ obsOfDict
        (dictAssign (snapshotCopies initStore).1
          (snapshotCopies initStore).2.1 ("speed") (PyVal.num 5))
        initStore.session
      = obsOfDict (snapshotCopies initStore).1 initStore.session :=
  snapshot_top_level_copies_defensive initStore (by decide) ("speed")
    (PyVal.num 5) (snapshotCopies initStore).2.1 (Or.inl rfl)

/-! ## Ring-buffer abstraction for the history claims -/

/-- The last `n` elements of a list. -/
def lastN {α : Type _} (n : Nat) (l : List α) : List α := l.drop (l.length - n)

/-- The logical contents of the ring buffer, oldest first: the written
prefix while not yet full, and the stitched wrap otherwise. -/
def ring_contents (st : TelemetryState) : List HistoryRow :=
  if st.history_count < st.history_maxlen then st.buffer.take st.history_count
  else st.buffer.drop st.history_index ++ st.buffer.take st.history_index

/-- State invariant of the circular buffer maintained by `update_telemetry`:
fixed buffer length, bounded count, index in range, and index = count while
the buffer is not yet full. -/
def RingInv (st : TelemetryState) : Prop :=
  st.buffer.length = st.history_maxlen
  ∧ st.history_count ≤ st.history_maxlen
  ∧ st.history_index < st.history_maxlen
  ∧ (st.history_count < st.history_maxlen →
      st.history_index = st.history_count)

/-- Python `%` stays below a positive modulus. -/
theorem pymod_lt (a : Int) (n : Nat) (hpos : 0 < n) : pymod a n < n := by
  unfold pymod
  have h1 : a % (n : Int) < (n : Int) :=
    Int.emod_lt_of_pos a (by exact_mod_cast hpos)
  have h2 : 0 ≤ a % (n : Int) := Int.emod_nonneg a (by exact_mod_cast hpos.ne')
  omega

/-- The freshly initialized state satisfies the invariant. -/
theorem ringInv_mk (maxlen : Nat) (hpos : 0 < maxlen) (t0 : ℚ) :
    RingInv (mkTelemetryState maxlen t0) := by
  refine ⟨?_, ?_, ?_, ?_⟩ <;> simp [mkTelemetryState, hpos]

/-- `update_telemetry` preserves the invariant. -/
theorem ringInv_update (st : TelemetryState) (d : TelemetryData) (now : ℚ)
    (h : RingInv st) : RingInv (update_telemetry st d now) := by
  obtain ⟨hlen, hcount, hidx, hic⟩ := h
  have hpos : 0 < st.history_maxlen := Nat.lt_of_le_of_lt (Nat.zero_le _) hidx
  refine ⟨?_, ?_, ?_, ?_⟩
  · simpa [update_telemetry] using hlen
  · simp [update_telemetry]
  · simpa [update_telemetry] using Nat.mod_lt _ hpos
  · simp only [update_telemetry]
    intro hlt
    have hc1 : st.history_count + 1 < st.history_maxlen := by omega
    have hi : st.history_index = st.history_count := hic (by omega)
    rw [hi, Nat.mod_eq_of_lt (by omega)]
    omega

/-- Core list-level fact: a circular-buffer write at the cursor keeps the
logical contents equal to the last `m` of the old contents with the new row
appended. -/
theorem ringPush {α : Type _} (m c i : Nat) (b : List α) (r : α)
    (hlen : b.length = m) (hcount : c ≤ m) (hidx : i < m)
    (hic : c < m → i = c) :
    (if min (c + 1) m < m then (b.set i r).take (min (c + 1) m)
     else (b.set i r).drop ((i + 1) % m) ++ (b.set i r).take ((i + 1) % m))
    = lastN m ((if c < m then b.take c else b.drop i ++ b.take i) ++ [r]) := by
  by_cases hcm : c < m
  · have hieq : i = c := hic hcm
    subst hieq
    rw [if_pos hcm]
    have hset : b.set i r = b.take i ++ r :: b.drop (i + 1) :=
      by rw [List.set_eq_take_append_cons_drop, if_pos (by omega)]
    have htklen : (b.take i).length = i := by simp [List.length_take]; omega
    have htake : (b.set i r).take (i + 1) = b.take i ++ [r] := by
      rw [hset, show i + 1 = (b.take i).length + 1 from by omega,
        List.take_append]
      simp
    have hRHS : lastN m (b.take i ++ [r]) = b.take i ++ [r] := by
      unfold lastN
      rw [show (b.take i ++ [r]).length - m = 0 from by simp; omega]
      exact List.drop_zero _
    by_cases hc1 : i + 1 < m
    · rw [if_pos (by omega), show min (i + 1) m = i + 1 from by omega,
        htake, hRHS]
    · have hceq : i + 1 = m := by omega
      rw [if_neg (by omega),
        show (i + 1) % m = 0 from by rw [hceq]; exact Nat.mod_self m]
      simp only [List.drop_zero, List.take_zero, List.append_nil]
      rw [hset, show b.drop (i + 1) = [] from
        List.drop_eq_nil_of_le (by omega), hRHS]
  · have hceq : c = m := by omega
    rw [if_neg hcm, if_neg (by omega)]
    have hset : b.set i r = b.take i ++ r :: b.drop (i + 1) :=
      by rw [List.set_eq_take_append_cons_drop, if_pos (by omega)]
    have htklen : (b.take i).length = i := by simp [List.length_take]; omega
    have htake : (b.set i r).take (i + 1) = b.take i ++ [r] := by
      rw [hset, show i + 1 = (b.take i).length + 1 from by omega,
        List.take_append]
      simp
    have hdroplen : (b.drop i).length = m - i := by simp [List.length_drop, hlen]
    have hRHS : lastN m ((b.drop i ++ b.take i) ++ [r])
        = b.drop (i + 1) ++ (b.take i ++ [r]) := by
      unfold lastN
      rw [show ((b.drop i ++ b.take i) ++ [r]).length - m = 1 from by
        simp [List.length_drop, List.length_take]; omega]
      rw [List.append_assoc,
        List.drop_append_of_le_length (by omega), List.drop_drop,
        show i + 1 = 1 + i from by omega]
    rw [hRHS]
    by_cases hi1 : i + 1 < m
    · rw [show (i + 1) % m = i + 1 from Nat.mod_eq_of_lt hi1]
      have hdrop : (b.set i r).drop (i + 1) = b.drop (i + 1) := by
        rw [List.drop_set]
        simp
      rw [htake, hdrop]
    · have hieq : i + 1 = m := by omega
      rw [show (i + 1) % m = 0 from by rw [hieq]; exact Nat.mod_self m]
      simp only [List.drop_zero, List.take_zero, List.append_nil]
      rw [hset, show b.drop (i + 1) = [] from
        List.drop_eq_nil_of_le (by omega)]
      simp

/-- One `update_telemetry` call pushes the written row onto the logical
contents, keeping only the last `maxlen` rows. -/
theorem ring_contents_update (st : TelemetryState) (d : TelemetryData)
    (now : ℚ) (h : RingInv st) :
    ring_contents (update_telemetry st d now)
      = lastN st.history_maxlen
          (ring_contents st ++
            [writeRow d
              (now - (if st.history_count = 0 then now else st.start_time))]) := by
  obtain ⟨hlen, hcount, hidx, hic⟩ := h
  have hmain := ringPush st.history_maxlen st.history_count st.history_index
    st.buffer
    (writeRow d (now - (if st.history_count = 0 then now else st.start_time)))
    hlen hcount hidx hic
  unfold ring_contents
  exact hmain

/-- `get_history_df` with no limit returns exactly the logical contents. -/
theorem get_history_none (st : TelemetryState) (h : RingInv st) :
    get_history_df st none = ring_contents st := by
  obtain ⟨hlen, hcount, hidx, hic⟩ := h
  have hpos : 0 < st.history_maxlen := Nat.lt_of_le_of_lt (Nat.zero_le _) hidx
  unfold get_history_df ring_contents
  by_cases h0 : st.history_count = 0
  · rw [if_pos h0, h0, if_pos hpos]
    simp
  · rw [if_neg h0]
    by_cases hcm : st.history_count < st.history_maxlen
    · rw [if_pos hcm, if_pos hcm]
      simp only []
      rw [if_pos (Nat.pos_of_ne_zero h0)]
      simp
    · rw [if_neg hcm, if_neg hcm]
      simp only [pyTruthy, Bool.false_and, Bool.false_eq_true, if_false]
      rw [if_neg (lt_irrefl _)]
      congr 1
      exact List.take_of_length_le (by simp [hlen])

/-- The history read never returns more rows than the capacity, for any
limit. -/
theorem get_history_length_le (st : TelemetryState) (h : RingInv st)
    (limit : Option Nat) :
    (get_history_df st limit).length ≤ st.history_maxlen := by
  obtain ⟨hlen, hcount, hidx, hic⟩ := h
  have hpos : 0 < st.history_maxlen := Nat.lt_of_le_of_lt (Nat.zero_le _) hidx
  by_cases h0 : st.history_count = 0
  · simp [get_history_df, h0]
  · by_cases hcm : st.history_count < st.history_maxlen
    · simp only [get_history_df, if_neg h0, if_pos hcm]
      rw [if_pos (Nat.pos_of_ne_zero h0)]
      simp [List.length_take, List.length_drop, hlen] <;> omega
    · simp only [get_history_df, if_neg h0, if_neg hcm]
      set s0 := (if pyTruthy limit && decide (limit.getD 0 < st.history_count)
        then pymod ((st.history_index : Int) - (limit.getD 0 : Int))
          st.history_maxlen
        else st.history_index) with hs0
      have hs0lt : s0 < st.history_maxlen := by
        rw [hs0]
        split
        · exact pymod_lt _ _ hpos
        · exact hidx
      split
      · simp [List.length_take, List.length_drop, hlen] <;> omega
      · rename_i hnlt
        simp only [not_lt] at hnlt
        simp [List.length_take, List.length_drop, hlen]
        omega

/-- Dropping the old overflow commutes with appending one element. -/
theorem lastN_append_lastN {α : Type _} (n : Nat) (l : List α) (x : α) :
    lastN n (lastN n l ++ [x]) = lastN n (l ++ [x]) := by
  unfold lastN
  by_cases hn : l.length ≤ n
  · rw [show l.length - n = 0 from by omega]
    simp
  · have hlen1 : (l.drop (l.length - n)).length = n := by
      simp [List.length_drop]
      omega
    by_cases hn0 : n = 0
    · subst hn0
      simp
    · have h1 : 1 ≤ (l.drop (l.length - n)).length := by omega
      rw [show (l.drop (l.length - n) ++ [x]).length - n = 1 from by
        simp [hlen1]]
      rw [List.drop_append_of_le_length h1, List.drop_drop]
      rw [show (l ++ [x]).length - n = (l.length - n) + 1 from by
        simp <;> omega]
      rw [List.drop_append_of_le_length (by omega)]

/-- Folding any write sequence from the initial state keeps the invariant
and the capacity. -/
theorem fold_ringInv (maxlen : Nat) (hpos : 0 < maxlen) (t0 : ℚ)
    (ws : List (TelemetryData × ℚ)) :
    RingInv (ws.foldl (fun s w => update_telemetry s w.1 w.2)
        (mkTelemetryState maxlen t0))
    ∧ (ws.foldl (fun s w => update_telemetry s w.1 w.2)
        (mkTelemetryState maxlen t0)).history_maxlen = maxlen := by
  induction ws using List.reverseRecOn with
  | nil => exact ⟨ringInv_mk maxlen hpos t0, rfl⟩
  | append_singleton ws w ih =>
    rw [List.foldl_concat]
    exact ⟨ringInv_update _ _ _ ih.1, ih.2⟩

/-- Full characterization of a nonempty write fold: invariant, capacity,
count, session start time, and the logical contents as the last `maxlen`
written rows, timestamps relative to the first write. -/
theorem fold_update_spec (maxlen : Nat) (hpos : 0 < maxlen) (t0 : ℚ)
    (w0 : TelemetryData × ℚ) (ws : List (TelemetryData × ℚ)) :
    RingInv ((w0 :: ws).foldl (fun s w => update_telemetry s w.1 w.2)
        (mkTelemetryState maxlen t0))
    ∧ ((w0 :: ws).foldl (fun s w => update_telemetry s w.1 w.2)
        (mkTelemetryState maxlen t0)).history_maxlen = maxlen
    ∧ ((w0 :: ws).foldl (fun s w => update_telemetry s w.1 w.2)
        (mkTelemetryState maxlen t0)).history_count
        = min (ws.length + 1) maxlen
    ∧ ((w0 :: ws).foldl (fun s w => update_telemetry s w.1 w.2)
        (mkTelemetryState maxlen t0)).start_time = w0.2
    ∧ ring_contents ((w0 :: ws).foldl (fun s w => update_telemetry s w.1 w.2)
        (mkTelemetryState maxlen t0))
        = lastN maxlen ((w0 :: ws).map fun w => writeRow w.1 (w.2 - w0.2)) := by
  induction ws using List.reverseRecOn with
  | nil =>
    refine ⟨ringInv_update _ _ _ (ringInv_mk maxlen hpos t0), rfl, rfl, ?_, ?_⟩
    · simp [update_telemetry, mkTelemetryState]
    · simp only [List.foldl_cons, List.foldl_nil]
      rw [ring_contents_update _ _ _ (ringInv_mk maxlen hpos t0)]
      simp [ring_contents, mkTelemetryState, hpos]
  | append_singleton ws w ih =>
    obtain ⟨hinv, hml, hcnt, hst, hcontents⟩ := ih
    have hconcat : (w0 :: (ws ++ [w])) = (w0 :: ws) ++ [w] := by simp
    rw [hconcat, List.foldl_concat]
    have hcne : ((w0 :: ws).foldl (fun s w => update_telemetry s w.1 w.2)
        (mkTelemetryState maxlen t0)).history_count ≠ 0 := by
      rw [hcnt]
      omega
    refine ⟨ringInv_update _ _ _ hinv, hml, ?_, ?_, ?_⟩
    · rw [show (update_telemetry _ w.1 w.2).history_count
        = min (((w0 :: ws).foldl (fun s w => update_telemetry s w.1 w.2)
            (mkTelemetryState maxlen t0)).history_count + 1)
          ((w0 :: ws).foldl (fun s w => update_telemetry s w.1 w.2)
            (mkTelemetryState maxlen t0)).history_maxlen from rfl]
      rw [hcnt, hml]
      simp
      omega
    · rw [show (update_telemetry _ w.1 w.2).start_time
        = (if ((w0 :: ws).foldl (fun s w => update_telemetry s w.1 w.2)
              (mkTelemetryState maxlen t0)).history_count = 0 then w.2
           else ((w0 :: ws).foldl (fun s w => update_telemetry s w.1 w.2)
              (mkTelemetryState maxlen t0)).start_time) from rfl]
      rw [if_neg hcne]
      exact hst
    · rw [ring_contents_update _ _ _ hinv, hml, if_neg hcne, hst, hcontents,
        lastN_append_lastN]
      simp

/-- C4: the History ring buffer (default capacity
`Config.MAX_HISTORY_LENGTH = 2400`) never yields more than `capacity` rows,
and after writing `capacity + k` samples (`k ≥ 1`) through
`update_telemetry`, `get_history_df` with no limit returns exactly the
`capacity` most recent written rows, oldest first (timestamps relative to
the first write). -/
theorem history_ring_overwrite (maxlen k : Nat) (t0 : ℚ)
    (w0 : TelemetryData × ℚ) (ws : List (TelemetryData × ℚ))
    (hpos : 0 < maxlen) (hk : 1 ≤ k)
    (hlen : (w0 :: ws).length = maxlen + k) :
    get_history_df ((w0 :: ws).foldl (fun s w => update_telemetry s w.1 w.2)
        (mkTelemetryState maxlen t0)) none
      = ((w0 :: ws).drop k).map (fun w => writeRow w.1 (w.2 - w0.2))
    ∧ (get_history_df ((w0 :: ws).foldl (fun s w => update_telemetry s w.1 w.2)
        (mkTelemetryState maxlen t0)) none).length = maxlen
    ∧ (∀ (anyWrites : List (TelemetryData × ℚ)) (limit : Option Nat),
        (get_history_df
          (anyWrites.foldl (fun s w => update_telemetry s w.1 w.2)
            (mkTelemetryState maxlen t0)) limit).length ≤ maxlen)
    ∧ Config.MAX_HISTORY_LENGTH = 2400 := by
  obtain ⟨hinv, hml, hcnt, hst, hcontents⟩ := fold_update_spec maxlen hpos t0 w0 ws
  have h1 : get_history_df ((w0 :: ws).foldl
      (fun s w => update_telemetry s w.1 w.2) (mkTelemetryState maxlen t0)) none
      = ring_contents ((w0 :: ws).foldl (fun s w => update_telemetry s w.1 w.2)
          (mkTelemetryState maxlen t0)) :=
    get_history_none _ hinv
  have hmain : get_history_df ((w0 :: ws).foldl
      (fun s w => update_telemetry s w.1 w.2) (mkTelemetryState maxlen t0)) none
      = ((w0 :: ws).drop k).map (fun w => writeRow w.1 (w.2 - w0.2)) := by
    rw [h1, hcontents]
    unfold lastN
    rw [List.length_map, hlen, show maxlen + k - maxlen = k from by omega]
    rw [List.map_drop]
  refine ⟨hmain, ?_, ?_, rfl⟩
  · rw [hmain, List.length_map, List.length_drop, hlen]
    omega
  · intro anyWrites limit
    obtain ⟨hinv2, hml2⟩ := fold_ringInv maxlen hpos t0 anyWrites
    have := get_history_length_le _ hinv2 limit
    rwa [hml2] at this

/-- Witness for `history_ring_overwrite`: capacity 2, three writes, and the
history is the last two rows, oldest first. -/
theorem history_ring_overwrite_witness :
    get_history_df (([(sampleData1, (0 : ℚ)), (sampleData2, 1),
          (sampleData1, 2)]).foldl (fun s w => update_telemetry s w.1 w.2)
        (mkTelemetryState 2 0)) none
      = (([(sampleData1, (0 : ℚ)), (sampleData2, 1),
          (sampleData1, 2)]).drop 1).map
          (fun w => writeRow w.1 (w.2 - (0 : ℚ)))
    ∧ (get_history_df (([(sampleData1, (0 : ℚ)), (sampleData2, 1),
          (sampleData1, 2)]).foldl (fun s w => update_telemetry s w.1 w.2)
        (mkTelemetryState 2 0)) none).length = 2
    ∧ (∀ (anyWrites : List (TelemetryData × ℚ)) (limit : Option Nat),
        (get_history_df
          (anyWrites.foldl (fun s w => update_telemetry s w.1 w.2)
            (mkTelemetryState 2 0)) limit).length ≤ 2)
    ∧ Config.MAX_HISTORY_LENGTH = 2400 :=
  history_ring_overwrite 2 1 0 (sampleData1, 0)
    [(sampleData2, 1), (sampleData1, 2)] (by decide) (by decide) (by decide)

/-- C7: `compute_corner_deltas` maps exactly the zones having at least one
delta point with distance in `[start_dist, end_dist]` to an entry whose
`delta_ms` is the net change `last.delta_ms - first.delta_ms` over the
in-range points (not a mean or integral), and every produced entry is
classified `gain` exactly when that change is negative, `loss` otherwise. -/
theorem compute_corner_deltas_spec (delta_df : List DeltaPoint)
    (corners : List CornerZone) :
    compute_corner_deltas delta_df corners
      = corners.filterMap (fun corner =>
          match cornerPoints delta_df corner with
          | [] => none
          | p0 :: rest =>
            some { name := corner.name
                   delta_ms := (rest.getLastD p0).delta_ms - p0.delta_ms
                   type := if (rest.getLastD p0).delta_ms - p0.delta_ms < 0
                     then ("gain") else ("loss") })
    ∧ ∀ cd ∈ compute_corner_deltas delta_df corners,
        (cd.type = ("gain") ↔ cd.delta_ms < 0) := by
  have key : ∀ (cs : List CornerZone) (acc : List CornerDelta),
      cs.foldl
        (fun acc corner =>
          match cornerPoints delta_df corner with
          | [] => acc
          | p0 :: rest =>
            let delta_change := (rest.getLastD p0).delta_ms - p0.delta_ms
            acc ++ [{ name := corner.name
                      delta_ms := delta_change
                      type := if delta_change < 0 then ("gain")
                        else ("loss") }])
        acc
      = acc ++ cs.filterMap (fun corner =>
          match cornerPoints delta_df corner with
          | [] => none
          | p0 :: rest =>
            some { name := corner.name
                   delta_ms := (rest.getLastD p0).delta_ms - p0.delta_ms
                   type := if (rest.getLastD p0).delta_ms - p0.delta_ms < 0
                     then ("gain") else ("loss") }) := by
    intro cs
    induction cs with
    | nil => intro acc; simp
    | cons c cs ih =>
      intro acc
      rw [List.foldl_cons, List.filterMap_cons]
      cases hpts : cornerPoints delta_df c with
      | nil => simp only [hpts]; exact ih acc
      | cons p0 rest =>
        simp only [hpts]
        rw [ih (acc ++ [_])]
        simp
  have hmain : compute_corner_deltas delta_df corners
      = corners.filterMap (fun corner =>
          match cornerPoints delta_df corner with
          | [] => none
          | p0 :: rest =>
            some { name := corner.name
                   delta_ms := (rest.getLastD p0).delta_ms - p0.delta_ms
                   type := if (rest.getLastD p0).delta_ms - p0.delta_ms < 0
                     then ("gain") else ("loss") }) := by
    have hk := key corners []
    simpa [compute_corner_deltas] using hk
  refine ⟨hmain, ?_⟩
  · intro cd hcd
    rw [hmain] at hcd
    obtain ⟨c, _, hc⟩ := List.mem_filterMap.mp hcd
    cases hpts : cornerPoints delta_df c with
    | nil => rw [hpts] at hc; cases hc
    | cons p0 rest =>
      rw [hpts] at hc
      have hcd2 := (Option.some_injective _ hc)
      subst hcd2
      by_cases hneg : (rest.getLastD p0).delta_ms - p0.delta_ms < 0
      · simp [hneg]
      · simp [hneg]

/-- Witness for `compute_corner_deltas_spec`: one zone covering both points
of a small table, net change `-8`, classified `gain`. -/
theorem compute_corner_deltas_spec_witness :
    compute_corner_deltas
        [{ distance := 0, delta_ms := 5 }, { distance := 10, delta_ms := -3 }]
        [{ name := ("T1"), start_dist := 0, end_dist := 10, min_speed := 0 }]
      = [{ name := ("T1"), delta_ms := -8, type := ("gain") }] := by
  have h := compute_corner_deltas_spec
    [{ distance := 0, delta_ms := 5 }, { distance := 10, delta_ms := -3 }]
    [{ name := ("T1"), start_dist := 0, end_dist := 10, min_speed := 0 }]
  rw [h.1]
  norm_num [cornerPoints, List.filterMap, List.filter]

/-- Helper: `timeDiffs` preserves length. -/
theorem timeDiffs_length (l : List ℚ) : (timeDiffs l).length = l.length := by
  cases l with
  | nil => rfl
  | cons t ts => simp [timeDiffs, List.length_zipWith]

/-- Helper: `cumsum` preserves length. -/
theorem cumsum_length (l : List ℚ) : (cumsum l).length = l.length := by
  simp [cumsum, List.length_scanl]

/-- Helper: the head of a `scanl` is the initial accumulator. -/
theorem scanl_headD (l : List ℚ) (b : ℚ) :
    (List.scanl (fun a c => a + c) b l).headD 0 = b := by
  cases l <;> simp [List.scanl]

/-- Helper: the entry 0 of a `scanl` is the initial accumulator. -/
theorem scanl_getD_zero (l : List ℚ) (b : ℚ) :
    (List.scanl (fun a c => a + c) b l).getD 0 0 = b := by
  cases l <;> simp [List.scanl]

/-- Helper: successive `scanl (+)` entries differ by the list entry. -/
theorem scanl_add_getD (xs : List ℚ) (b : ℚ) (i : Nat) (h : i < xs.length) :
    (List.scanl (fun a c => a + c) b xs).getD (i + 1) 0
      = (List.scanl (fun a c => a + c) b xs).getD i 0 + xs.getD i 0 := by
  induction xs generalizing b i with
  | nil => simp at h
  | cons x xs ih =>
    rw [List.scanl_cons]
    cases i with
    | zero =>
      simp only [List.singleton_append, List.getD_cons_succ,
        List.getD_cons_zero]
      exact scanl_getD_zero xs (b + x)
    | succ j =>
      simp only [List.singleton_append, List.getD_cons_succ]
      exact ih (b + x) j (by simpa using h)

/-- Helper: the `cumsum` recurrence. -/
theorem cumsum_getD_succ (l : List ℚ) (i : Nat) (h : i + 1 < l.length) :
    (cumsum l).getD (i + 1) 0 = (cumsum l).getD i 0 + l.getD (i + 1) 0 := by
  cases l with
  | nil => simp at h
  | cons x xs =>
    simp only [cumsum, List.scanl_cons, List.singleton_append, List.tail_cons,
      List.getD_cons_succ]
    exact scanl_add_getD xs (0 + x) i (by simpa using h)

/-- Helper: `timeDiffs` entries past the head are adjacent differences. -/
theorem timeDiffs_getD (l : List ℚ) (i : Nat) (h : i + 1 < l.length) :
    (timeDiffs l).getD (i + 1) 0 = l.getD (i + 1) 0 - l.getD i 0 := by
  cases l with
  | nil => simp at h
  | cons t ts =>
    have hi : i < ts.length := by simpa using h
    have hil : i < (t :: ts).length := by simp; omega
    have hzl : i < (List.zipWith (fun a b => a - b) ts (t :: ts)).length := by
      simp [List.length_zipWith]
      omega
    simp only [timeDiffs, List.getD_cons_succ]
    rw [List.getD_eq_getElem _ _ hzl, List.getElem_zipWith,
      List.getD_eq_getElem _ _ hi, List.getD_eq_getElem _ _ hil]

/-- C9: for a time-sorted (driver, lap) group, `calc_distance` (the
per-group body of `compute_distance_along_lap`) yields one distance per row
with `distance[0] = 0` and
`distance[i] = distance[i-1] + speed_ms[i] * (time[i] - time[i-1])`
(`speed_ms = speed_kph * 1000 / 3600`); with non-negative speeds the
distances are non-decreasing. -/
theorem calc_distance_spec (group : List SpeedSample)
    (hsorted : group.Pairwise fun a b => a.time_stamp ≤ b.time_stamp) :
    (calc_distance group).length = group.length
    ∧ (calc_distance group).headD 0 = 0
    ∧ (∀ i : Nat, i + 1 < group.length →
        (calc_distance group).getD (i + 1) 0
          = (calc_distance group).getD i 0
            + (group.getD (i + 1) ⟨0, 0⟩).speed_kph * 1000 / 3600
              * ((group.getD (i + 1) ⟨0, 0⟩).time_stamp
                  - (group.getD i ⟨0, 0⟩).time_stamp))
    ∧ ((∀ r ∈ group, 0 ≤ r.speed_kph) →
        (calc_distance group).Chain' (fun a b => a ≤ b)) := by
  have hms : group.mergeSort (fun a b => decide (a.time_stamp ≤ b.time_stamp))
      = group :=
    List.mergeSort_of_sorted (hsorted.imp fun h => decide_eq_true h)
  have hhead : (calc_distance group).headD 0 = 0 := by
    unfold calc_distance
    rw [hms]
    cases group with
    | nil => rfl
    | cons r rs =>
      simp only [List.map_cons, timeDiffs, List.zipWith_cons_cons, cumsum,
        List.scanl_cons, List.singleton_append, List.tail_cons]
      rw [scanl_headD]
      simp
  have hcalc : calc_distance group
      = cumsum (List.zipWith (fun r dt => r.speed_kph * 1000 / 3600 * dt) group
          (timeDiffs (group.map SpeedSample.time_stamp))) := by
    unfold calc_distance
    rw [hms]
  have hlinc : (List.zipWith (fun r dt => r.speed_kph * 1000 / 3600 * dt) group
      (timeDiffs (group.map SpeedSample.time_stamp))).length = group.length := by
    rw [List.length_zipWith, timeDiffs_length, List.length_map]
    simp
  have hlen : (calc_distance group).length = group.length := by
    rw [hcalc, cumsum_length, hlinc]
  have hval : ∀ i : Nat, i + 1 < group.length →
      (List.zipWith (fun r dt => r.speed_kph * 1000 / 3600 * dt) group
        (timeDiffs (group.map SpeedSample.time_stamp))).getD (i + 1) 0
      = (group.getD (i + 1) ⟨0, 0⟩).speed_kph * 1000 / 3600
        * ((group.getD (i + 1) ⟨0, 0⟩).time_stamp
            - (group.getD i ⟨0, 0⟩).time_stamp) := by
    intro i h
    have hgi : i < group.length := by omega
    have hdts : (timeDiffs (group.map SpeedSample.time_stamp)).getD (i + 1) 0
        = (group.getD (i + 1) ⟨0, 0⟩).time_stamp
          - (group.getD i ⟨0, 0⟩).time_stamp := by
      rw [timeDiffs_getD _ _ (by simpa using h)]
      congr 1
      · rw [List.getD_eq_getElem _ _ (by simpa using h), List.getElem_map,
          List.getD_eq_getElem _ _ h]
      · rw [List.getD_eq_getElem _ _ (by simpa using hgi), List.getElem_map,
          List.getD_eq_getElem _ _ hgi]
    have hzb : i + 1 < (List.zipWith
        (fun r dt => r.speed_kph * 1000 / 3600 * dt) group
        (timeDiffs (group.map SpeedSample.time_stamp))).length := by
      rw [hlinc]
      exact h
    have hb : i + 1 < (timeDiffs (group.map SpeedSample.time_stamp)).length := by
      rw [timeDiffs_length, List.length_map]
      exact h
    rw [List.getD_eq_getElem _ _ hzb, List.getElem_zipWith]
    rw [show (timeDiffs (group.map SpeedSample.time_stamp))[i + 1]
        = (timeDiffs (group.map SpeedSample.time_stamp)).getD (i + 1) 0 from
      (List.getD_eq_getElem _ _ hb).symm]
    rw [hdts, List.getD_eq_getElem group _ h, List.getD_eq_getElem group _ hgi]
  have hrec : ∀ i : Nat, i + 1 < group.length →
      (calc_distance group).getD (i + 1) 0
        = (calc_distance group).getD i 0
          + (group.getD (i + 1) ⟨0, 0⟩).speed_kph * 1000 / 3600
            * ((group.getD (i + 1) ⟨0, 0⟩).time_stamp
                - (group.getD i ⟨0, 0⟩).time_stamp) := by
    intro i h
    rw [hcalc, cumsum_getD_succ _ i (by rw [hlinc]; exact h), hval i h]
  refine ⟨hlen, hhead, hrec, ?_⟩
  intro hsp
  rw [List.chain'_iff_get]
  intro j hj
  have hjl : j + 1 < group.length := by
    rw [hlen] at hj
    omega
  have e1 : ∀ (m : Nat) (hm : m < (calc_distance group).length),
      (calc_distance group).get ⟨m, hm⟩ = (calc_distance group).getD m 0 := by
    intro m hm
    rw [List.get_eq_getElem, List.getD_eq_getElem _ _ hm]
  rw [e1, e1, hrec j hjl]
  have hmem : group.getD (j + 1) ⟨0, 0⟩ ∈ group := by
    rw [List.getD_eq_getElem _ _ hjl]
    exact List.getElem_mem _
  have hspn : 0 ≤ (group.getD (j + 1) ⟨0, 0⟩).speed_kph := hsp _ hmem
  have hdt : (group.getD j ⟨0, 0⟩).time_stamp
      ≤ (group.getD (j + 1) ⟨0, 0⟩).time_stamp := by
    have hgj : j < group.length := by omega
    have hpair := List.pairwise_iff_getElem.mp hsorted j (j + 1) hgj hjl
      (by omega)
    rw [List.getD_eq_getElem _ _ hgj, List.getD_eq_getElem _ _ hjl]
    exact hpair
  have h1 : (0 : ℚ) ≤ (group.getD (j + 1) ⟨0, 0⟩).speed_kph * 1000 / 3600 :=
    div_nonneg (mul_nonneg hspn (by norm_num)) (by norm_num)
  have h2 : (0 : ℚ) ≤ (group.getD (j + 1) ⟨0, 0⟩).speed_kph * 1000 / 3600
      * ((group.getD (j + 1) ⟨0, 0⟩).time_stamp
          - (group.getD j ⟨0, 0⟩).time_stamp) :=
    mul_nonneg h1 (by linarith)
  linarith

/-- Witness for `calc_distance_spec`: a two-sample sorted group. -/
theorem calc_distance_spec_witness :
    (calc_distance [⟨0, 36⟩, ⟨1, 72⟩]).length
        = ([⟨0, 36⟩, ⟨1, 72⟩] : List SpeedSample).length
    ∧ (calc_distance [⟨0, 36⟩, ⟨1, 72⟩]).headD 0 = 0
    ∧ (∀ i : Nat, i + 1 < ([⟨0, 36⟩, ⟨1, 72⟩] : List SpeedSample).length →
        (calc_distance [⟨0, 36⟩, ⟨1, 72⟩]).getD (i + 1) 0
          = (calc_distance [⟨0, 36⟩, ⟨1, 72⟩]).getD i 0
            + (([⟨0, 36⟩, ⟨1, 72⟩] : List SpeedSample).getD (i + 1)
                ⟨0, 0⟩).speed_kph * 1000 / 3600
              * ((([⟨0, 36⟩, ⟨1, 72⟩] : List SpeedSample).getD (i + 1)
                  ⟨0, 0⟩).time_stamp
                  - (([⟨0, 36⟩, ⟨1, 72⟩] : List SpeedSample).getD i
                    ⟨0, 0⟩).time_stamp))
    ∧ ((∀ r ∈ ([⟨0, 36⟩, ⟨1, 72⟩] : List SpeedSample), 0 ≤ r.speed_kph) →
        (calc_distance [⟨0, 36⟩, ⟨1, 72⟩]).Chain' (fun a b => a ≤ b)) :=
  calc_distance_spec [⟨0, 36⟩, ⟨1, 72⟩] (by decide)

/-- Helper: scanning above-threshold rows while not inside a corner changes
nothing. -/
theorem scan_above (th md : ℚ) (rows : List LapRow)
    (habove : ∀ r ∈ rows, ¬ r.speed_kph < th) (s : CornerScan)
    (hs : s.in_corner = false) :
    rows.foldl (stepCorner th md) s = s := by
  induction rows with
  | nil => rfl
  | cons r rs ih =>
    rw [List.foldl_cons]
    have h1 : ¬ (r.speed_kph < th) := habove r (List.mem_cons_self r rs)
    have hstep : stepCorner th md s r = s := by
      simp [stepCorner, h1, hs]
    rw [hstep]
    exact ih fun r hr => habove r (List.mem_cons_of_mem _ hr)

/-- Helper: scanning below-threshold rows while inside a corner only extends
the accumulated segment. -/
theorem scan_below (th md : ℚ) (ds : List LapRow)
    (hbelow : ∀ r ∈ ds, r.speed_kph < th) (s : CornerScan)
    (hs : s.in_corner = true) :
    ds.foldl (stepCorner th md) s
      = { in_corner := true, seg := s.seg ++ ds, corners := s.corners } := by
  induction ds generalizing s with
  | nil =>
    cases s
    simp_all
  | cons d ds ih =>
    rw [List.foldl_cons]
    have h1 : d.speed_kph < th := hbelow d (List.mem_cons_self d ds)
    have hstep : stepCorner th md s d = { s with seg := s.seg ++ [d] } := by
      simp [stepCorner, h1, hs]
    rw [hstep, ih (fun r hr => hbelow r (List.mem_cons_of_mem _ hr))
      { in_corner := s.in_corner, seg := s.seg ++ [d], corners := s.corners }
      hs]
    simp

/-- Helper: below-threshold rows never emit a corner, in any scan state. -/
theorem scan_below_corners (th md : ℚ) (ds : List LapRow)
    (hbelow : ∀ r ∈ ds, r.speed_kph < th) (s : CornerScan) :
    (ds.foldl (stepCorner th md) s).corners = s.corners := by
  induction ds generalizing s with
  | nil => rfl
  | cons d ds ih =>
    rw [List.foldl_cons]
    have h1 : d.speed_kph < th := hbelow d (List.mem_cons_self d ds)
    have hcor : (stepCorner th md s d).corners = s.corners := by
      simp only [stepCorner, if_pos h1]
      split <;> rfl
    rw [ih fun r hr => hbelow r (List.mem_cons_of_mem _ hr), hcor]

/-- Helper: a left fold of `min` stays at a lower bound of the list. -/
theorem foldl_min_eq (qs : List ℚ) (q : ℚ) (h : ∀ x ∈ qs, q ≤ x) :
    qs.foldl min q = q := by
  induction qs generalizing q with
  | nil => rfl
  | cons x xs ih =>
    rw [List.foldl_cons, min_eq_left (h x (List.mem_cons_self x xs))]
    exact ih q fun y hy => h y (List.mem_cons_of_mem _ hy)

/-- Helper: a left fold of `max` is bounded by a bound of seed and list. -/
theorem foldl_max_le (qs : List ℚ) (q M : ℚ) (hq : q ≤ M)
    (h : ∀ x ∈ qs, x ≤ M) : qs.foldl max q ≤ M := by
  induction qs generalizing q with
  | nil => exact hq
  | cons x xs ih =>
    rw [List.foldl_cons]
    exact ih (max q x) (max_le hq (h x (List.mem_cons_self x xs)))
      fun y hy => h y (List.mem_cons_of_mem _ hy)

/-- Helper: the seed is below the `max` fold. -/
theorem seed_le_foldl_max (qs : List ℚ) (q : ℚ) : q ≤ qs.foldl max q := by
  induction qs generalizing q with
  | nil => exact le_refl _
  | cons y ys ih => exact le_trans (le_max_left q y) (ih (max q y))

/-- Helper: every member of seed and list is below the `max` fold. -/
theorem le_foldl_max (qs : List ℚ) (q x : ℚ) :
    (x = q ∨ x ∈ qs) → x ≤ qs.foldl max q := by
  induction qs generalizing q with
  | nil =>
    intro hx
    rcases hx with rfl | hx
    · exact le_refl _
    · cases hx
  | cons y ys ih =>
    intro hx
    rw [List.foldl_cons]
    rcases hx with rfl | hx
    · exact le_trans (le_max_left x y) (seed_le_foldl_max ys _)
    · rcases List.mem_cons.mp hx with rfl | hx
      · exact le_trans (le_max_right q x) (seed_le_foldl_max ys _)
      · exact ih _ (Or.inr hx)

/-- Helper: `seriesMin` of a list headed by a lower bound is the head. -/
theorem seriesMin_eq_head (q : ℚ) (qs : List ℚ) (h : ∀ x ∈ qs, q ≤ x) :
    seriesMin (q :: qs) = q := by
  simp only [seriesMin]
  exact foldl_min_eq qs q h

/-- Helper: `seriesMax` of a nonempty list is any member that bounds it. -/
theorem seriesMax_eq (q : ℚ) (qs : List ℚ) (M : ℚ) (hM : M = q ∨ M ∈ qs)
    (h : ∀ x ∈ q :: qs, x ≤ M) : seriesMax (q :: qs) = M := by
  simp only [seriesMax]
  exact le_antisymm
    (foldl_max_le qs q M (h q (List.mem_cons_self q qs))
      fun x hx => h x (List.mem_cons_of_mem _ hx))
    (le_foldl_max qs q M hM)

/-- C10: a below-threshold run that extends to the end of the trace is
discarded regardless of its duration: appending any time-sorted tail of
below-threshold samples to a lap table leaves `find_corner_zones` unchanged,
because a zone is only emitted when a later above-threshold sample closes
it.  In particular no reported zone contains the final sample of a trace
that ends below the threshold. -/
theorem find_corner_zones_drops_trailing_run (th md : ℚ)
    (rows dip : List LapRow)
    (hsorted : (rows ++ dip).Pairwise fun a b => a.time_stamp ≤ b.time_stamp)
    (hdip : ∀ r ∈ dip, r.speed_kph < th) :
    find_corner_zones (rows ++ dip) th md = find_corner_zones rows th md := by
  simp only [find_corner_zones]
  rw [List.mergeSort_of_sorted (hsorted.imp fun h => decide_eq_true h)]
  rw [List.mergeSort_of_sorted
    (((List.pairwise_append.mp hsorted).1).imp fun h => decide_eq_true h)]
  rw [List.foldl_append]
  exact scan_below_corners th md dip hdip _

/-- Witness for `find_corner_zones_drops_trailing_run`: a trace ending in a
two-sample below-threshold run of span 2 s reports no zone, like its
prefix. -/
theorem find_corner_zones_drops_trailing_run_witness :
    find_corner_zones
        ([{ time_stamp := 0, speed_kph := 300, dist_along_lap := 0 }] ++
          [{ time_stamp := 1, speed_kph := 100, dist_along_lap := 50 },
           { time_stamp := 3, speed_kph := 90, dist_along_lap := 120 }])
        200 1
      = find_corner_zones
          [{ time_stamp := 0, speed_kph := 300, dist_along_lap := 0 }] 200 1 :=
  find_corner_zones_drops_trailing_run 200 1
    [{ time_stamp := 0, speed_kph := 300, dist_along_lap := 0 }]
    [{ time_stamp := 1, speed_kph := 100, dist_along_lap := 50 },
     { time_stamp := 3, speed_kph := 90, dist_along_lap := 120 }]
    (by decide) (by decide)

/-- One maximal below-threshold run together with the above-threshold block
that closes it: first dip sample `d0`, remaining dip samples `dtl`, closing
above-threshold sample `p0`, remaining above-threshold samples `ptl`. -/
structure CornerBlock where
  d0 : LapRow
  dtl : List LapRow
  p0 : LapRow
  ptl : List LapRow
deriving DecidableEq

/-- The samples of one run-plus-closing-block, in trace order. -/
def blockRows (b : CornerBlock) : List LapRow :=
  (b.d0 :: b.dtl) ++ (b.p0 :: b.ptl)

/-- The samples of a sequence of closed runs, in trace order. -/
def blocksRows (bs : List CornerBlock) : List LapRow :=
  (bs.map blockRows).flatten

/-- The zone list the amended claim predicts for a sequence of closed runs,
continuing from already-emitted zones `acc`: one zone per closed run whose
measured duration — from the run's first sample to the closing sample — is
at least `min_duration`, named `Corner k` in first-seen order of the emitted
zones, spanning the run's first distance to the closing sample's distance,
with the segment's minimum speed. -/
def zonesOfBlocks (min_duration : ℚ) (bs : List CornerBlock)
    (acc : List CornerZone) : List CornerZone :=
  bs.foldl
    (fun acc b =>
      if min_duration ≤ b.p0.time_stamp - b.d0.time_stamp then
        acc ++ [{ name := ("Corner ") ++ toString (acc.length + 1)
                  start_dist := b.d0.dist_along_lap
                  end_dist := b.p0.dist_along_lap
                  min_speed := seriesMin
                    (((b.d0 :: b.dtl) ++ [b.p0]).map LapRow.speed_kph) }]
      else acc)
    acc

/-- Helper: scanning one time-sorted closed run from outside a corner emits
exactly the zone the amended claim predicts for it, and returns the scan to
the outside-a-corner state. -/
theorem scan_block (th md : ℚ) (d0 : LapRow) (dtl : List LapRow)
    (p0 : LapRow) (ptl : List LapRow) (cs : List CornerZone)
    (hsorted : ((d0 :: dtl) ++ (p0 :: ptl)).Pairwise
        fun a b => a.time_stamp ≤ b.time_stamp)
    (hdip : ∀ r ∈ d0 :: dtl, r.speed_kph < th)
    (hpost : ∀ r ∈ p0 :: ptl, ¬ r.speed_kph < th) :
    ((d0 :: dtl) ++ (p0 :: ptl)).foldl (stepCorner th md)
        { in_corner := false, seg := [], corners := cs }
      = { in_corner := false, seg := [],
          corners :=
            if md ≤ p0.time_stamp - d0.time_stamp then
              cs ++ [{ name := ("Corner ") ++ toString (cs.length + 1)
                       start_dist := d0.dist_along_lap
                       end_dist := p0.dist_along_lap
                       min_speed := seriesMin
                         (((d0 :: dtl) ++ [p0]).map LapRow.speed_kph) }]
            else cs } := by
  have hseg : ((d0 :: dtl) ++ [p0]).Pairwise
      (fun a b => a.time_stamp ≤ b.time_stamp) :=
    List.Pairwise.sublist
      (List.Sublist.append_left
        (List.cons_sublist_cons.mpr (List.nil_sublist ptl)) (d0 :: dtl))
      hsorted
  have hbound : ∀ r ∈ (d0 :: dtl) ++ [p0], r.time_stamp ≤ p0.time_stamp := by
    intro r hr
    rcases List.mem_append.mp hr with hr | hr
    · exact (List.pairwise_append.mp hseg).2.2 r hr p0 (List.mem_cons_self _ _)
    · rw [List.mem_singleton.mp hr]
  have hlow : ∀ r ∈ dtl ++ [p0], d0.time_stamp ≤ r.time_stamp := by
    intro r hr
    exact (List.pairwise_cons.mp hseg).1 r hr
  have hmax : seriesMax (d0.time_stamp ::
      (dtl ++ [p0]).map LapRow.time_stamp) = p0.time_stamp := by
    apply seriesMax_eq
    · exact Or.inr (List.mem_map.mpr
        ⟨p0, List.mem_append.mpr (Or.inr (List.mem_cons_self _ _)), rfl⟩)
    · intro x hx
      rcases List.mem_cons.mp hx with rfl | hx
      · exact hbound d0 (List.mem_append.mpr (Or.inl (List.mem_cons_self _ _)))
      · obtain ⟨r, hr, rfl⟩ := List.mem_map.mp hx
        apply hbound
        rcases List.mem_append.mp hr with hr | hr
        · exact List.mem_append.mpr (Or.inl (List.mem_cons_of_mem _ hr))
        · exact List.mem_append.mpr (Or.inr hr)
  have hmin : seriesMin (d0.time_stamp ::
      (dtl ++ [p0]).map LapRow.time_stamp) = d0.time_stamp := by
    apply seriesMin_eq_head
    intro x hx
    obtain ⟨r, hr, rfl⟩ := List.mem_map.mp hx
    exact hlow r hr
  rw [List.foldl_append]
  have hd0 : d0.speed_kph < th := hdip d0 (List.mem_cons_self _ _)
  have hentry : stepCorner th md
      { in_corner := false, seg := [], corners := cs } d0
      = { in_corner := true, seg := [d0], corners := cs } := by
    simp [stepCorner, hd0]
  have hdipfold : List.foldl (stepCorner th md)
      { in_corner := false, seg := [], corners := cs } (d0 :: dtl)
      = { in_corner := true, seg := [d0] ++ dtl, corners := cs } := by
    rw [List.foldl_cons, hentry]
    exact scan_below th md dtl
      (fun r hr => hdip r (List.mem_cons_of_mem _ hr)) _ rfl
  rw [hdipfold]
  rw [List.foldl_cons]
  have hp0 : ¬ p0.speed_kph < th := hpost p0 (List.mem_cons_self _ _)
  simp only [stepCorner, if_neg hp0]
  simp only [List.singleton_append, List.cons_append, List.map_cons,
    List.nil_append, List.headD_cons]
  rw [hmax, hmin]
  rw [scan_above th md ptl
    (fun r hr => hpost r (List.mem_cons_of_mem _ hr)) _ rfl]
  simp

/-- Helper: scanning a time-sorted sequence of closed runs from outside a
corner emits exactly the zones `zonesOfBlocks` predicts, in order. -/
theorem scan_blocks (th md : ℚ) (bs : List CornerBlock) (cs : List CornerZone)
    (hsorted : (blocksRows bs).Pairwise fun a b => a.time_stamp ≤ b.time_stamp)
    (hdips : ∀ b ∈ bs, ∀ r ∈ b.d0 :: b.dtl, r.speed_kph < th)
    (hposts : ∀ b ∈ bs, ∀ r ∈ b.p0 :: b.ptl, ¬ r.speed_kph < th) :
    (blocksRows bs).foldl (stepCorner th md)
        { in_corner := false, seg := [], corners := cs }
      = { in_corner := false, seg := [], corners := zonesOfBlocks md bs cs } := by
  induction bs generalizing cs with
  | nil => simp [blocksRows, zonesOfBlocks]
  | cons b bs ih =>
    have hrows : blocksRows (b :: bs) = blockRows b ++ blocksRows bs := by
      simp [blocksRows]
    rw [hrows] at hsorted ⊢
    rw [List.foldl_append]
    rw [show blockRows b = (b.d0 :: b.dtl) ++ (b.p0 :: b.ptl) from rfl]
    rw [scan_block th md b.d0 b.dtl b.p0 b.ptl cs
      (List.pairwise_append.mp hsorted).1
      (hdips b (List.mem_cons_self _ _))
      (hposts b (List.mem_cons_self _ _))]
    rw [ih _ (List.pairwise_append.mp hsorted).2.1
      (fun b' hb' => hdips b' (List.mem_cons_of_mem _ hb'))
      (fun b' hb' => hposts b' (List.mem_cons_of_mem _ hb'))]
    rfl

/-- C8 (counterexample to the stated property): two time-sorted traces with
threshold 200 km/h and min_duration 1 s refute the claim in both directions.
In the first trace the maximal below-threshold run (t = 1 to t = 3, so its
duration 3 - 1 is at least min_duration) reaches the end of the trace and
find_corner_zones reports no zone for it. In the second trace the maximal
below-threshold run is a single sample at t = 1 — its samples span 1 - 1 = 0
seconds, less than min_duration — yet find_corner_zones reports one zone,
because the segment it measures includes the closing above-threshold sample
at t = 3. -/
theorem find_corner_zones_maximal_run_counterexample :
    ((1 : ℚ) ≤ 3 - 1 ∧
      find_corner_zones
          [{ time_stamp := 0, speed_kph := 300, dist_along_lap := 0 },
           { time_stamp := 1, speed_kph := 100, dist_along_lap := 50 },
           { time_stamp := 3, speed_kph := 90, dist_along_lap := 120 }]
          200 1
        = []) ∧
    (¬ ((1 : ℚ) ≤ 1 - 1) ∧
      (find_corner_zones
          [{ time_stamp := 0, speed_kph := 300, dist_along_lap := 0 },
           { time_stamp := 1, speed_kph := 100, dist_along_lap := 10 },
           { time_stamp := 3, speed_kph := 250, dist_along_lap := 40 }]
          200 1).length
        = 1) := by
  refine ⟨⟨by norm_num, ?_⟩, by norm_num, ?_⟩
  · simp only [find_corner_zones]
    rw [List.mergeSort_of_sorted (by decide)]
    decide
  · have hsplit : ([{ time_stamp := 0, speed_kph := 300, dist_along_lap := 0 },
           { time_stamp := 1, speed_kph := 100, dist_along_lap := 10 },
           { time_stamp := 3, speed_kph := 250, dist_along_lap := 40 }] :
            List LapRow)
        = [{ time_stamp := 0, speed_kph := 300, dist_along_lap := 0 }] ++
            ([{ time_stamp := 1, speed_kph := 100, dist_along_lap := 10 }] ++
              [{ time_stamp := 3, speed_kph := 250, dist_along_lap := 40 }]) :=
      rfl
    simp only [find_corner_zones]
    rw [List.mergeSort_of_sorted (by decide), hsplit, List.foldl_append]
    rw [scan_above 200 1
      [{ time_stamp := 0, speed_kph := 300, dist_along_lap := 0 }]
      (by decide) _ rfl]
    rw [scan_block 200 1
      { time_stamp := 1, speed_kph := 100, dist_along_lap := 10 } []
      { time_stamp := 3, speed_kph := 250, dist_along_lap := 40 } [] []
      (by decide) (by decide) (by decide)]
    norm_num

/-- C8 (amended): for every time-sorted lap table that decomposes into an
above-threshold prefix, a sequence of below-threshold runs each closed by a
following above-threshold block, and an optional final below-threshold run
reaching the end of the trace, find_corner_zones returns exactly the zones of
`zonesOfBlocks`: one zone per closed run whose measured duration — from the
run's first sample to the closing above-threshold sample, which the source's
inclusive segment slice contains — is at least min_duration, named Corner k
in first-seen order of the zones actually emitted, spanning the run's first
sample's distance to the closing sample's distance with the segment's minimum
speed; a final run that reaches the end of the trace is never reported. -/
theorem find_corner_zones_runs (th md : ℚ) (pre : List LapRow)
    (bs : List CornerBlock) (trail : List LapRow)
    (hsorted : (pre ++ (blocksRows bs ++ trail)).Pairwise
        fun a b => a.time_stamp ≤ b.time_stamp)
    (hpre : ∀ r ∈ pre, ¬ r.speed_kph < th)
    (hdips : ∀ b ∈ bs, ∀ r ∈ b.d0 :: b.dtl, r.speed_kph < th)
    (hposts : ∀ b ∈ bs, ∀ r ∈ b.p0 :: b.ptl, ¬ r.speed_kph < th)
    (htrail : ∀ r ∈ trail, r.speed_kph < th) :
    find_corner_zones (pre ++ (blocksRows bs ++ trail)) th md
      = zonesOfBlocks md bs [] := by
  simp only [find_corner_zones]
  rw [List.mergeSort_of_sorted (hsorted.imp fun h => decide_eq_true h)]
  rw [List.foldl_append, List.foldl_append]
  rw [scan_above th md pre hpre _ rfl]
  rw [scan_blocks th md bs []
    (List.pairwise_append.mp (List.pairwise_append.mp hsorted).2.1).1
    hdips hposts]
  exact scan_below_corners th md trail htrail _

/-- A first closed run: one dip sample at t = 1, closed at t = 3 (duration 2 ≥ 1). -/
def sampleBlock1 : CornerBlock :=
  { d0 := { time_stamp := 1, speed_kph := 100, dist_along_lap := 10 }
    dtl := []
    p0 := { time_stamp := 3, speed_kph := 250, dist_along_lap := 40 }
    ptl := [] }

/-- A second closed run: dip samples at t = 4, 5, closed at t = 6 (duration 2 ≥ 1). -/
def sampleBlock2 : CornerBlock :=
  { d0 := { time_stamp := 4, speed_kph := 150, dist_along_lap := 60 }
    dtl := [{ time_stamp := 5, speed_kph := 90, dist_along_lap := 70 }]
    p0 := { time_stamp := 6, speed_kph := 260, dist_along_lap := 90 }
    ptl := [{ time_stamp := 7, speed_kph := 280, dist_along_lap := 100 }] }

/-- Witness for `find_corner_zones_runs`: a trace with an above-threshold
prefix, two closed below-threshold runs and a trailing unclosed run yields
exactly the two predicted zones, numbered Corner 1 and Corner 2 in
first-seen order. -/
theorem find_corner_zones_runs_witness :
    find_corner_zones
        ([{ time_stamp := 0, speed_kph := 300, dist_along_lap := 0 }] ++
          (blocksRows [sampleBlock1, sampleBlock2] ++
            [{ time_stamp := 8, speed_kph := 100, dist_along_lap := 110 }]))
        200 1
      = zonesOfBlocks 1 [sampleBlock1, sampleBlock2] [] ∧
    (zonesOfBlocks 1 [sampleBlock1, sampleBlock2] []).map CornerZone.name
      = [("Corner 1"), ("Corner 2")] :=
  ⟨find_corner_zones_runs 200 1
      [{ time_stamp := 0, speed_kph := 300, dist_along_lap := 0 }]
      [sampleBlock1, sampleBlock2]
      [{ time_stamp := 8, speed_kph := 100, dist_along_lap := 110 }]
      (by decide) (by decide) (by decide) (by decide) (by decide),
    by
      simp only [zonesOfBlocks, sampleBlock1, sampleBlock2, List.foldl_cons,
        List.foldl_nil]
      norm_num
      exact ⟨by decide, by decide⟩⟩
